import Mathlib

/-!
Verification development for the local-code terminal coding assistant.

The Python sources embedded here (shallowly) are:
  client/tools.py   : tool handlers, registry, prompt, parse_tool_calls
  client/agent.py   : agent_chat loop, think-tag stream demultiplexer,
                      get_system_prompt
  client/claude_client.py : ClaudeClient.plan / ClaudeClient.review
                      post-processing of supervisor responses

Modelling conventions:
  Python str            -> List Char  (abbrev Str)
  Python dict / JSON    -> Json inductive; dict literals keep source key order
  json.loads            -> jsonParse : Str -> Option Json  (decode failure = none)
  filesystem            -> association list of (absolute path, file content)
  subprocess spawns     -> an explicit trace inside a World structure
  interactive prompts   -> an oracle of boolean decisions inside an Env structure
  the model token stream-> an Env oracle giving, per loop iteration, the list of
                           stream events (token / error / done)
-/

namespace LocalCode

abbrev Str := List Char

def sl (s : String) : Str := s.data

/-- Boolean prefix test on character lists. -/
def isPre : Str → Str → Bool
  | [], _ => true
  | _ :: _, [] => false
  | a :: as, b :: bs => a == b && isPre as bs

theorem isPre_iff (p s : Str) : isPre p s = true ↔ ∃ t, s = p ++ t := by
  induction p generalizing s with
  | nil => simp [isPre]
  | cons a as ih =>
    cases s with
    | nil =>
      simp [isPre]
    | cons b bs =>
      simp only [isPre, Bool.and_eq_true, beq_iff_eq, ih, List.cons_append,
        List.cons.injEq]
      constructor
      · rintro ⟨rfl, t, rfl⟩
        exact ⟨t, rfl, rfl⟩
      · rintro ⟨t, rfl, rfl⟩
        exact ⟨rfl, t, rfl⟩

theorem isPre_refl_append (p t : Str) : isPre p (p ++ t) = true := by
  rw [isPre_iff]
  exact ⟨t, rfl⟩

/-- Auxiliary scan for findSub: position of first occurrence, offset by i. -/
def findSubFrom (needle : Str) : Str → Nat → Option Nat
  | [], i => if needle = [] then some i else none
  | s@(_ :: t), i => if isPre needle s then some i else findSubFrom needle t (i + 1)

/-- Python str.find as an Option: index of the first occurrence of needle in hay. -/
def findSub (hay needle : Str) : Option Nat := findSubFrom needle hay 0

/-- Boolean substring containment, Python `needle in hay`. -/
def containsSub (hay needle : Str) : Bool := (findSub hay needle).isSome

theorem findSubFrom_shift (n s : Str) (i : Nat) :
    findSubFrom n s i = (findSubFrom n s 0).map (· + i) := by
  induction s generalizing i with
  | nil => by_cases h : n = [] <;> simp [findSubFrom, h]
  | cons a t ih =>
    by_cases h : isPre n (a :: t)
    · simp [findSubFrom, h]
    · simp only [findSubFrom, h, if_neg, Bool.not_eq_true] at *
      rw [ih (i + 1), ih 1]
      cases findSubFrom n t 0 with
      | none => simp
      | some j => simp; omega

theorem findSub_cons_of_isPre {n : Str} {s : Str} (h : isPre n s = true) :
    findSub s n = some 0 := by
  cases s with
  | nil =>
    cases n with
    | nil => simp [findSub, findSubFrom]
    | cons c cs => simp [isPre] at h
  | cons a t => simp [findSub, findSubFrom, h]

theorem findSub_cons_of_not_isPre {n : Str} {a : Char} {t : Str}
    (h : ¬ isPre n (a :: t) = true) :
    findSub (a :: t) n = (findSub t n).map (· + 1) := by
  simp only [findSub, findSubFrom, h, if_neg, Bool.not_eq_true] at *
  exact findSubFrom_shift n t 1

/-- Soundness: a reported index is an occurrence. -/
theorem findSub_some_isPre {s n : Str} {i : Nat} (h : findSub s n = some i) :
    isPre n (s.drop i) = true := by
  induction s generalizing i with
  | nil =>
    by_cases hn : n = []
    · subst hn; simp [isPre]
    · simp [findSub, findSubFrom, hn] at h
  | cons a t ih =>
    by_cases hp : isPre n (a :: t) = true
    · rw [findSub_cons_of_isPre hp] at h
      cases h
      simpa using hp
    · rw [findSub_cons_of_not_isPre hp] at h
      cases hj : findSub t n with
      | none => rw [hj] at h; simp at h
      | some j =>
        rw [hj] at h
        simp at h
        subst h
        simpa using ih hj

/-- Minimality: no occurrence strictly before the reported index. -/
theorem findSub_some_min {s n : Str} {i : Nat} (h : findSub s n = some i) :
    ∀ j, j < i → isPre n (s.drop j) = false := by
  induction s generalizing i with
  | nil =>
    by_cases hn : n = []
    · subst hn
      simp [findSub, findSubFrom] at h
      omega
    · simp [findSub, findSubFrom, hn] at h
  | cons a t ih =>
    by_cases hp : isPre n (a :: t) = true
    · rw [findSub_cons_of_isPre hp] at h
      cases h
      omega
    · rw [findSub_cons_of_not_isPre hp] at h
      cases hj : findSub t n with
      | none => rw [hj] at h; simp at h
      | some j' =>
        rw [hj] at h
        simp at h
        subst h
        intro j hjlt
        cases j with
        | zero => simpa using hp
        | succ j0 =>
          simp only [List.drop_succ_cons]
          exact ih hj j0 (by omega)

/-- Completeness: none means no occurrence anywhere. -/
theorem findSub_none {s n : Str} (h : findSub s n = none) :
    ∀ j, isPre n (s.drop j) = false := by
  induction s with
  | nil =>
    by_cases hn : n = []
    · simp [findSub, findSubFrom, hn] at h
    · intro j
      cases n with
      | nil => exact absurd rfl hn
      | cons c cs => simp [isPre]
  | cons a t ih =>
    by_cases hp : isPre n (a :: t) = true
    · rw [findSub_cons_of_isPre hp] at h
      simp at h
    · rw [findSub_cons_of_not_isPre hp] at h
      cases hj : findSub t n with
      | some j' => rw [hj] at h; simp at h
      | none =>
        intro j
        cases j with
        | zero => simpa using hp
        | succ j0 =>
          simp only [List.drop_succ_cons]
          exact ih hj j0

/-- If an occurrence exists, findSub reports one. -/
theorem findSub_isSome_of_isPre {s n : Str} {j : Nat}
    (h : isPre n (s.drop j) = true) : (findSub s n).isSome := by
  cases hf : findSub s n with
  | some i => rfl
  | none => rw [findSub_none hf j] at h; cases h

/-!
JSON values. Python dicts are modelled as association lists that keep the
source- or parse-order of keys (Python dicts preserve insertion order); the
fnum constructor carries a decimal mantissa and a power-of-ten exponent for
non-integer number literals.
-/

inductive Json where
  | null
  | bool (b : Bool)
  | num (n : Int)
  | fnum (mantissa : Int) (exp10 : Int)
  | str (s : Str)
  | arr (elems : List Json)
  | obj (fields : List (Str × Json))
  deriving Repr

/-- Lexicographic code-point order on strings, Python str comparison. -/
def ltStr : Str → Str → Bool
  | [], [] => false
  | [], _ :: _ => true
  | _ :: _, [] => false
  | a :: as, b :: bs => if a == b then ltStr as bs else decide (a < b)

/-- Insert a field into a key-sorted field list. -/
def insField (kv : Str × Json) : List (Str × Json) → List (Str × Json)
  | [] => [kv]
  | e :: es => if ltStr kv.1 e.1 then kv :: e :: es else e :: insField kv es

/-- Sort fields by key (insertion sort). -/
def sortFields : List (Str × Json) → List (Str × Json)
  | [] => []
  | e :: es => insField e (sortFields es)

mutual

/-- Key-order-insensitive canonical form: Python dict equality ignores key
order, so two values are Python-equal iff their canonical forms are equal. -/
def canon : Json → Json
  | .null => .null
  | .bool b => .bool b
  | .num n => .num n
  | .fnum m e => .fnum m e
  | .str s => .str s
  | .arr xs => .arr (canonList xs)
  | .obj fs => .obj (sortFields (canonFields fs))

def canonList : List Json → List Json
  | [] => []
  | x :: xs => canon x :: canonList xs

def canonFields : List (Str × Json) → List (Str × Json)
  | [] => []
  | (k, v) :: fs => (k, canon v) :: canonFields fs

end

/-- Python `key in dict` on a JSON object; false for non-objects
(parse_tool_calls only applies it to decoded objects). -/
def hasKey (j : Json) (k : Str) : Bool :=
  match j with
  | .obj fs => fs.any (fun kv => kv.1 == k)
  | _ => false

/-- Dict lookup, first matching key. -/
def objGet (j : Json) (k : Str) : Option Json :=
  match j with
  | .obj fs => (fs.find? (fun kv => kv.1 == k)).map (·.2)
  | _ => none

/-- Python dict assignment d[k] = v: update in place if the key exists
(keeping its position), else append. -/
def dictInsert (fs : List (Str × Json)) (k : Str) (v : Json) : List (Str × Json) :=
  if fs.any (fun kv => kv.1 == k) then
    fs.map (fun kv => if kv.1 == k then (k, v) else kv)
  else fs ++ [(k, v)]

/-- JSON whitespace (the set json.loads skips between tokens). -/
def isJsonWs (c : Char) : Bool := c == ' ' || c == '\t' || c == '\n' || c == '\r'

def skipWs : Str → Str
  | [] => []
  | c :: t => if isJsonWs c then skipWs t else c :: t

def isDigitCh (c : Char) : Bool := '0' ≤ c && c ≤ '9'

/-- Split a leading digit run. -/
def takeDigits : Str → Str × Str
  | [] => ([], [])
  | c :: t =>
    if isDigitCh c then
      let (d, r) := takeDigits t
      (c :: d, r)
    else ([], c :: t)

def digitVal (c : Char) : Nat := c.toNat - '0'.toNat

def digitsToNat (ds : Str) : Nat := ds.foldl (fun acc c => acc * 10 + digitVal c) 0

def hexVal (c : Char) : Option Nat :=
  let n := c.toNat
  if isDigitCh c then some (digitVal c)
  else if 97 ≤ n && n ≤ 102 then some (n - 87)
  else if 65 ≤ n && n ≤ 70 then some (n - 55)
  else none

/-- JSON number literal: -? (0 | [1-9][0-9]*) frac? exp?; integer literals
decode to num, others to fnum (decimal mantissa and power of ten). -/
def parseNumber (s : Str) : Option (Json × Str) :=
  let (negSign, s1) := match s with
    | '-' :: t => (true, t)
    | _ => (false, s)
  let (intDs, s2) := takeDigits s1
  if intDs = [] then none
  else if intDs.length > 1 && intDs.headI = '0' then none
  else
    let (fracDs, s3) := match s2 with
      | '.' :: t =>
        let (d, r) := takeDigits t
        (d, if d = [] then s2 else r)
      | _ => ([], s2)
    if s2 ≠ s3 && fracDs = [] then none
    else
      let (hasExp, expNeg, expDs, s4) := match s3 with
        | 'e' :: t | 'E' :: t =>
          let (sgn, t1) := match t with
            | '+' :: u => (false, u)
            | '-' :: u => (true, u)
            | _ => (false, t)
          let (d, r) := takeDigits t1
          (true, sgn, d, r)
        | _ => (false, false, ([] : Str), s3)
      if hasExp && expDs = [] then none
      else
        let mantNat := digitsToNat (intDs ++ fracDs)
        let mant : Int := if negSign then -(mantNat : Int) else (mantNat : Int)
        let expVal : Int := (if expNeg then -(digitsToNat expDs : Int) else (digitsToNat expDs : Int))
          - (fracDs.length : Int)
        if fracDs = [] && ¬ hasExp then some (.num mant, s4)
        else some (.fnum mant expVal, s4)

/-- Decode one escape character code; none for invalid escapes. -/
def escCode (e : Char) : Option Char :=
  if e = '"' then some '"'
  else if e = '\\' then some '\\'
  else if e = '/' then some '/'
  else if e = 'b' then some (Char.ofNat 8)
  else if e = 'f' then some (Char.ofNat 12)
  else if e = 'n' then some '\n'
  else if e = 'r' then some '\r'
  else if e = 't' then some '\t'
  else none

/-- JSON string body after the opening quote; strict mode rejects raw
control characters. Surrogate pairing of u-escapes is outside the model. -/
def parseJStr : Str → Option (Str × Str)
  | [] => none
  | '"' :: t => some ([], t)
  | '\\' :: 'u' :: h1 :: h2 :: h3 :: h4 :: r =>
    match hexVal h1, hexVal h2, hexVal h3, hexVal h4 with
    | some a, some b, some c, some d =>
      (parseJStr r).map (fun p =>
        (Char.ofNat (((a * 16 + b) * 16 + c) * 16 + d) :: p.1, p.2))
    | _, _, _, _ => none
  | '\\' :: e :: t =>
    match escCode e with
    | some c => (parseJStr t).map (fun p => (c :: p.1, p.2))
    | none => none
  | c :: t =>
    if c.toNat < 32 then none
    else (parseJStr t).map (fun p => (c :: p.1, p.2))

mutual

/-- Recursive-descent JSON value parser (fuel-indexed; jsonParse supplies
enough fuel for any input, so fuel exhaustion never decides a result). -/
def parseValue : Nat → Str → Option (Json × Str)
  | 0, _ => none
  | fuel + 1, s =>
    match skipWs s with
    | [] => none
    | c :: t =>
      if c = 't' then
        if isPre (sl "rue") t then some (.bool true, t.drop 3) else none
      else if c = 'f' then
        if isPre (sl "alse") t then some (.bool false, t.drop 4) else none
      else if c = 'n' then
        if isPre (sl "ull") t then some (.null, t.drop 3) else none
      else if c = '"' then
        (parseJStr t).map (fun p => (.str p.1, p.2))
      else if c = '[' then
        match skipWs t with
        | ']' :: r => some (.arr [], r)
        | _ => parseElems fuel t []
      else if c = '\x7b' then
        match skipWs t with
        | '\x7d' :: r => some (.obj [], r)
        | _ => parseFields fuel t []
      else
        parseNumber (c :: t)

def parseElems : Nat → Str → List Json → Option (Json × Str)
  | 0, _, _ => none
  | fuel + 1, s, acc =>
    match parseValue fuel s with
    | none => none
    | some (v, rest) =>
      match skipWs rest with
      | ',' :: r => parseElems fuel r (acc ++ [v])
      | ']' :: r => some (.arr (acc ++ [v]), r)
      | _ => none

def parseFields : Nat → Str → List (Str × Json) → Option (Json × Str)
  | 0, _, _ => none
  | fuel + 1, s, acc =>
    match skipWs s with
    | '"' :: t =>
      match parseJStr t with
      | none => none
      | some (k, rest) =>
        match skipWs rest with
        | ':' :: r =>
          match parseValue fuel r with
          | none => none
          | some (v, rest2) =>
            match skipWs rest2 with
            | ',' :: r2 => parseFields fuel r2 (dictInsert acc k v)
            | '\x7d' :: r2 => some (.obj (dictInsert acc k v), r2)
            | _ => none
        | _ => none
    | _ => none

end

/-- json.loads as an Option: decode failure is none (the sources catch
json.JSONDecodeError and skip or fall back). -/
def jsonParse (s : Str) : Option Json :=
  match parseValue (2 * s.length + 2) s with
  | some (v, rest) => if skipWs rest = [] then some v else none
  | none => none

def natToStrAux : Nat → Str → Str
  | 0, acc => acc
  | n + 1, acc =>
    natToStrAux ((n + 1) / 10) (Char.ofNat ((n + 1) % 10 + '0'.toNat) :: acc)
termination_by n _ => n
decreasing_by exact Nat.div_lt_self (by omega) (by omega)

/-- Decimal rendering of a natural number. -/
def natToStr (n : Nat) : Str :=
  if n = 0 then ['0'] else natToStrAux n []

def intToStr (i : Int) : Str :=
  if i < 0 then '-' :: natToStr i.natAbs else natToStr i.natAbs

/-- One character of json.dumps string output with ensure_ascii disabled. -/
def escChar (c : Char) : Str :=
  if c = '"' then sl "\\\""
  else if c = '\\' then sl "\\\\"
  else if c = '\n' then sl "\\n"
  else if c = '\r' then sl "\\r"
  else if c = '\t' then sl "\\t"
  else if c = Char.ofNat 8 then sl "\\b"
  else if c = Char.ofNat 12 then sl "\\f"
  else if c.toNat < 32 then
    sl "\\u00" ++ [Char.ofNat ('0'.toNat + c.toNat / 16),
      (if c.toNat % 16 < 10 then Char.ofNat ('0'.toNat + c.toNat % 16)
       else Char.ofNat ('a'.toNat + c.toNat % 16 - 10))]
  else [c]

def dumpJStr (s : Str) : Str := '"' :: (s.map escChar).flatten ++ ['"']

def spaces : Nat → Str
  | 0 => []
  | n + 1 => ' ' :: spaces n

mutual

/-- json.dumps with ensure_ascii disabled and indent 2, at a given current
indent depth. Non-integer numbers are rendered as mantissa and exponent,
a model boundary: no claim serializes such values. -/
def dumps : Json → Nat → Str
  | .null, _ => sl "null"
  | .bool true, _ => sl "true"
  | .bool false, _ => sl "false"
  | .num n, _ => intToStr n
  | .fnum m e, _ => intToStr m ++ sl "e" ++ intToStr e
  | .str s, _ => dumpJStr s
  | .arr [], _ => sl "[]"
  | .arr (x :: xs), ind =>
    '[' :: '\n' :: spaces (ind + 2) ++ dumps x (ind + 2)
      ++ dumpsMoreItems xs (ind + 2) ++ '\n' :: spaces ind ++ [']']
  | .obj [], _ => sl "\x7b\x7d"
  | .obj ((k, v) :: fs), ind =>
    '\x7b' :: '\n' :: spaces (ind + 2) ++ dumpJStr k ++ ':' :: ' ' :: dumps v (ind + 2)
      ++ dumpsMoreFields fs (ind + 2) ++ '\n' :: spaces ind ++ ['\x7d']

def dumpsMoreItems : List Json → Nat → Str
  | [], _ => []
  | x :: xs, ind =>
    ',' :: '\n' :: spaces ind ++ dumps x ind ++ dumpsMoreItems xs ind

def dumpsMoreFields : List (Str × Json) → Nat → Str
  | [], _ => []
  | (k, v) :: fs, ind =>
    ',' :: '\n' :: spaces ind ++ dumpJStr k ++ ':' :: ' ' :: dumps v ind
      ++ dumpsMoreFields fs ind

end

/-- Python == on decoded JSON values: dict comparison ignores key order, so
compare canonical serializations of key-sorted forms. -/
def jsonEqPy (a b : Json) : Bool := dumps (canon a) 0 == dumps (canon b) 0

/-!
parse_tool_calls (tools.py lines 418-460): three regex extraction passes.
Pattern 1: a tool_call-tagged block around a brace-balanced-free JSON blob,
  regex r'<tool_call>\s*(\x7b[^\x7d]+\x7d)\s*</tool_call>'.
Pattern 2: a fenced code block holding a tool key,
  regex r'```(?:json)?\s*(\x7b[^`]*"tool"[^`]*\x7d)\s*```'.
Pattern 3: a bare object, regex
  r'\x7b\s*"tool"\s*:\s*"(\w+)"\s*,\s*"args"\s*:\s*(\x7b[^\x7d]*\x7d)\s*\x7d'.
Each matcher is the deterministic (or finitely backtracking, for pattern 2)
unfolding of Python regex leftmost-greedy matching for that pattern.
-/

/-- Python regex class \s (ASCII range; the sources only stream ASCII markers). -/
def reWs (c : Char) : Bool :=
  c == ' ' || c == '\t' || c == '\n' || c == '\r' || c == '\x0B' || c == '\x0C'

/-- Length of the leading regex-whitespace run. -/
def wsLen : Str → Nat
  | [] => 0
  | c :: t => if reWs c then wsLen t + 1 else 0

/-- Length of the leading run of characters other than c0. -/
def runLenNot (c0 : Char) : Str → Nat
  | [] => 0
  | c :: t => if c == c0 then 0 else runLenNot c0 t + 1

def isWordCh (c : Char) : Bool :=
  isDigitCh c || ('a' ≤ c && c ≤ 'z') || ('A' ≤ c && c ≤ 'Z') || c == '_'

/-- Length of the leading regex-\w run (ASCII model). -/
def wordLen : Str → Nat
  | [] => 0
  | c :: t => if isWordCh c then wordLen t + 1 else 0

/-- Character at an index. -/
def chAt (s : Str) (p : Nat) : Option Char := (s.drop p).head?

/-- Half-open slice of s from a to b. -/
def sub (s : Str) (a b : Nat) : Str := (s.drop a).take (b - a)

/-- Literal match at a position: position after the literal, or none. -/
def litAt (s : Str) (p : Nat) (lit : Str) : Option Nat :=
  if isPre lit (s.drop p) then some (p + lit.length) else none

def firstSome (f : α → Option β) : List α → Option β
  | [] => none
  | a :: as =>
    match f a with
    | some b => some b
    | none => firstSome f as

/-- Pattern-1 match attempt at position p: returns (capture, match end).
All quantifiers in the pattern are deterministic under greedy matching. -/
def match1At (s : Str) (p : Nat) : Option (Str × Nat) :=
  match litAt s p (sl "<tool_call>") with
  | none => none
  | some q =>
    let q1 := q + wsLen (s.drop q)
    if chAt s q1 == some '\x7b' then
      let r := q1 + 1
      let k := runLenNot '\x7d' (s.drop r)
      if k = 0 then none
      else if chAt s (r + k) == some '\x7d' then
        let capEnd := r + k + 1
        let w2 := wsLen (s.drop capEnd)
        match litAt s (capEnd + w2) (sl "</tool_call>") with
        | some e => some (sub s q1 capEnd, e)
        | none => none
      else none
    else none

/-- Pattern-2 match attempt at position p. The two greedy character-class
stars backtrack: longest first-star stretch (position of the quoted tool key,
descending), then longest second-star stretch (closing-brace position,
descending); the first combination whose tail matches wins. -/
def match2At (s : Str) (p : Nat) : Option (Str × Nat) :=
  match litAt s p (sl "```") with
  | none => none
  | some q =>
    let q2 := if isPre (sl "json") (s.drop q) then q + 4 else q
    let q3 := q2 + wsLen (s.drop q2)
    if chAt s q3 == some '\x7b' then
      let body := q3 + 1
      let reg := runLenNot '`' (s.drop body)
      firstSome (fun k =>
        match litAt s (body + k) (sl "\"tool\"") with
        | none => none
        | some a =>
          firstSome (fun j =>
            let cp := body + j
            if a ≤ cp && chAt s cp == some '\x7d' then
              let w2 := wsLen (s.drop (cp + 1))
              match litAt s (cp + 1 + w2) (sl "```") with
              | some e => some (sub s q3 (cp + 1), e)
              | none => none
            else none) (List.range (reg + 1)).reverse)
        (List.range (reg + 1)).reverse
    else none

/-- Pattern-3 match attempt at position p: returns ((tool name capture,
args capture), match end). All quantifiers are deterministic under greedy
matching because each following literal is outside the repeated class. -/
def match3At (s : Str) (p : Nat) : Option ((Str × Str) × Nat) :=
  if chAt s p == some '\x7b' then
    let a1 := p + 1 + wsLen (s.drop (p + 1))
    match litAt s a1 (sl "\"tool\"") with
    | none => none
    | some a2 =>
      let a3 := a2 + wsLen (s.drop a2)
      if chAt s a3 == some ':' then
        let a4 := a3 + 1 + wsLen (s.drop (a3 + 1))
        if chAt s a4 == some '"' then
          let w := wordLen (s.drop (a4 + 1))
          if w = 0 then none
          else if chAt s (a4 + 1 + w) == some '"' then
            let name := sub s (a4 + 1) (a4 + 1 + w)
            let b1 := a4 + 2 + w + wsLen (s.drop (a4 + 2 + w))
            if chAt s b1 == some ',' then
              let b2 := b1 + 1 + wsLen (s.drop (b1 + 1))
              match litAt s b2 (sl "\"args\"") with
              | none => none
              | some b3 =>
                let b4 := b3 + wsLen (s.drop b3)
                if chAt s b4 == some ':' then
                  let c1 := b4 + 1 + wsLen (s.drop (b4 + 1))
                  if chAt s c1 == some '\x7b' then
                    let m := runLenNot '\x7d' (s.drop (c1 + 1))
                    if chAt s (c1 + 1 + m) == some '\x7d' then
                      let argsEnd := c1 + 1 + m + 1
                      let d1 := argsEnd + wsLen (s.drop argsEnd)
                      if chAt s d1 == some '\x7d' then
                        some ((name, sub s c1 argsEnd), d1 + 1)
                      else none
                    else none
                  else none
                else none
            else none
          else none
        else none
      else none
  else none

/-- re.findall scan: try the matcher at each position left to right,
non-overlapping (resume after each match). -/
def scanAllAux (n : Nat) (f : Nat → Option (α × Nat)) : Nat → Nat → List α
  | 0, _ => []
  | fuel + 1, p =>
    if p > n then []
    else
      match f p with
      | some (a, e) => a :: scanAllAux n f fuel (max e (p + 1))
      | none => scanAllAux n f fuel (p + 1)

def findall1 (s : Str) : List Str :=
  scanAllAux s.length (match1At s) (s.length + 1) 0

def findall2 (s : Str) : List Str :=
  scanAllAux s.length (match2At s) (s.length + 1) 0

def findall3 (s : Str) : List (Str × Str) :=
  scanAllAux s.length (match3At s) (s.length + 1) 0

/-- Passes 1 and 2: json.loads each captured fragment, keep decoded calls
carrying a tool key, silently skip candidates that fail to decode. -/
def toolCallsOfFragments (frags : List Str) : List Json :=
  frags.filterMap (fun m =>
    match jsonParse m with
    | some call => if hasKey call (sl "tool") then some call else none
    | none => none)

/-- Pass-3 step: decode the args capture, build the call dict, and append
it unless an equal call is already in the list (the only dedup in the code). -/
def pass3Step (acc : List Json) (m : Str × Str) : List Json :=
  match jsonParse m.2 with
  | some args =>
    if acc.any (fun c => jsonEqPy c (Json.obj [(sl "tool", Json.str m.1), (sl "args", args)]))
    then acc
    else acc ++ [Json.obj [(sl "tool", Json.str m.1), (sl "args", args)]]
  | none => acc

/-- tools.parse_tool_calls. -/
def parse_tool_calls (response : Str) : List Json :=
  (findall3 response).foldl pass3Step
    (toolCallsOfFragments (findall1 response) ++ toolCallsOfFragments (findall2 response))

theorem jsonEqPy_refl (a : Json) : jsonEqPy a a = true := by
  simp [jsonEqPy]

theorem jsonEqPy_symm (a b : Json) : jsonEqPy a b = jsonEqPy b a := by
  unfold jsonEqPy
  by_cases h : dumps (canon a) 0 = dumps (canon b) 0
  · rw [h]
  · rw [beq_eq_false_iff_ne.mpr h, beq_eq_false_iff_ne.mpr (Ne.symm h)]

/-- The pass-3 fold appends a suffix to its starting list, and every suffix
element occurs (under Python equality) exactly once in the final list. -/
theorem pass3_foldl_once (ms : List (Str × Str)) (l0 : List Json) :
    ∃ tl, ms.foldl pass3Step l0 = l0 ++ tl ∧
      ∀ c ∈ tl, l0.countP (fun d => jsonEqPy c d) = 0 ∧
        (l0 ++ tl).countP (fun d => jsonEqPy c d) = 1 := by
  induction ms generalizing l0 with
  | nil => exact ⟨[], by simp, by simp⟩
  | cons m ms ih =>
    have hstep : ms.foldl pass3Step (pass3Step l0 m) = (m :: ms).foldl pass3Step l0 := rfl
    rcases hcase : jsonParse m.2 with _ | args
    · have h0 : pass3Step l0 m = l0 := by simp [pass3Step, hcase]
      rw [← hstep, h0]
      exact ih l0
    · by_cases hdup :
        l0.any (fun c => jsonEqPy c (Json.obj [(sl "tool", Json.str m.1), (sl "args", args)])) = true
      · have h0 : pass3Step l0 m = l0 := by simp [pass3Step, hcase, hdup]
        rw [← hstep, h0]
        exact ih l0
      · set call := Json.obj [(sl "tool", Json.str m.1), (sl "args", args)] with hcall
        have hno : l0.any (fun c => jsonEqPy c call) = false := by
          simpa [hcall] using eq_false_of_ne_true hdup
        have h0 : pass3Step l0 m = l0 ++ [call] := by
          simp [pass3Step, hcase, ← hcall, hno]
        have helem : ∀ d ∈ l0, jsonEqPy d call = false := by
          intro d hd
          have := List.any_eq_false.mp hno d hd
          simpa using this
        rw [← hstep, h0]
        obtain ⟨tl1, heq, hprop⟩ := ih (l0 ++ [call])
        refine ⟨call :: tl1, ?_, ?_⟩
        · rw [heq, List.append_assoc]
          rfl
        · intro c hc
          rcases List.mem_cons.mp hc with hc | hc
          · subst hc
            have hz : l0.countP (fun d => jsonEqPy call d) = 0 := by
              rw [List.countP_eq_zero]
              intro d hd
              rw [jsonEqPy_symm]
              simp [helem d hd]
            refine ⟨hz, ?_⟩
            have htl1 : ∀ c' ∈ tl1, jsonEqPy call c' = false := by
              intro c' hc'
              have h1 := (hprop c' hc').1
              rw [List.countP_eq_zero] at h1
              have := h1 call (by simp)
              rw [jsonEqPy_symm]
              simpa using this
            rw [List.countP_append, hz, List.countP_cons]
            have hz2 : tl1.countP (fun d => jsonEqPy call d) = 0 := by
              rw [List.countP_eq_zero]
              intro d hd
              simp [htl1 d hd]
            simp [hz2, jsonEqPy_refl]
          · have h1 := (hprop c hc).1
            have h2 := (hprop c hc).2
            rw [List.countP_append] at h1
            refine ⟨by omega, ?_⟩
            rw [List.append_assoc] at h2
            simpa using h2

/-- C3 counterexample input: the same call wrapped both as a tagged block
and as a fenced json block. -/
def c3text : Str :=
  sl "<tool_call> \x7b\"tool\": \"git_status\"\x7d </tool_call>\n```json\n\x7b\"tool\": \"git_status\"\x7d\n```"

def c3call : Json := Json.obj [(sl "tool", Json.str (sl "git_status"))]

/-- C3 counterexample: in c3text the identical tool/args pair is matched by
pass 1 (tagged block) and again by pass 2 (fenced block); parse_tool_calls
returns it twice, because the only duplicate check in the code runs for
pass-3 candidates. The claim "the returned list contains that call exactly
once" is false at this input. -/
theorem C3_counterexample :
    toolCallsOfFragments (findall1 c3text) = [c3call] ∧
    toolCallsOfFragments (findall2 c3text) = [c3call] ∧
    parse_tool_calls c3text = [c3call, c3call] ∧
    (parse_tool_calls c3text).countP (fun d => jsonEqPy c3call d) = 2 := by
  exact ⟨rfl, rfl, rfl, rfl⟩

/-- C3 (amended): duplicate suppression applies only to pass-3 (bare JSON)
candidates: the result is the pass-1 and pass-2 calls (which may repeat a
pair matched by both of those passes) followed by a suffix of pass-3 calls,
and each pass-3 suffix element occurs, under Python dict equality, exactly
once in the whole returned list. -/
theorem C3_amended_thm (s : Str) :
    ∃ tl, parse_tool_calls s
        = (toolCallsOfFragments (findall1 s) ++ toolCallsOfFragments (findall2 s)) ++ tl ∧
      ∀ c ∈ tl, (parse_tool_calls s).countP (fun d => jsonEqPy c d) = 1 := by
  obtain ⟨tl, heq, hprop⟩ :=
    pass3_foldl_once (findall3 s)
      (toolCallsOfFragments (findall1 s) ++ toolCallsOfFragments (findall2 s))
  refine ⟨tl, heq, fun c hc => ?_⟩
  rw [show parse_tool_calls s
      = (toolCallsOfFragments (findall1 s) ++ toolCallsOfFragments (findall2 s)) ++ tl
    from heq]
  exact (hprop c hc).2

/-- Witness for C3_amended_thm at a concrete bare-JSON input. -/
theorem C3_amended_witness :
    (parse_tool_calls (sl "\x7b\"tool\": \"git_status\", \"args\": \x7b\x7d\x7d")).countP
      (fun d => jsonEqPy (Json.obj [(sl "tool", Json.str (sl "git_status")),
        (sl "args", Json.obj [])]) d) = 1 := by
  obtain ⟨tl, heq, hprop⟩ :=
    C3_amended_thm (sl "\x7b\"tool\": \"git_status\", \"args\": \x7b\x7d\x7d")
  have hparse : parse_tool_calls (sl "\x7b\"tool\": \"git_status\", \"args\": \x7b\x7d\x7d")
      = [Json.obj [(sl "tool", Json.str (sl "git_status")), (sl "args", Json.obj [])]] := rfl
  have hpre : toolCallsOfFragments (findall1 (sl "\x7b\"tool\": \"git_status\", \"args\": \x7b\x7d\x7d"))
      ++ toolCallsOfFragments (findall2 (sl "\x7b\"tool\": \"git_status\", \"args\": \x7b\x7d\x7d"))
      = [] := rfl
  rw [hparse, hpre] at heq
  have htl : tl = [Json.obj [(sl "tool", Json.str (sl "git_status")), (sl "args", Json.obj [])]] := by
    simpa using heq.symm
  exact hprop _ (by rw [htl]; simp)

theorem toolCallsOfFragments_hasKey (frags : List Str) :
    ∀ j ∈ toolCallsOfFragments frags, hasKey j (sl "tool") = true := by
  intro j hj
  unfold toolCallsOfFragments at hj
  rw [List.mem_filterMap] at hj
  obtain ⟨m, _, hsome⟩ := hj
  split at hsome
  · split at hsome
    · cases hsome
      assumption
    · cases hsome
  · cases hsome

theorem pass3_foldl_hasKey (ms : List (Str × Str)) (l0 : List Json)
    (h : ∀ j ∈ l0, hasKey j (sl "tool") = true) :
    ∀ j ∈ ms.foldl pass3Step l0, hasKey j (sl "tool") = true := by
  induction ms generalizing l0 with
  | nil => simpa using h
  | cons m ms ih =>
    intro j hj
    refine ih (pass3Step l0 m) ?_ j hj
    intro j' hj'
    unfold pass3Step at hj'
    split at hj'
    · split at hj'
      · exact h j' hj'
      · rcases List.mem_append.mp hj' with hj0 | hj1
        · exact h j' hj0
        · rw [List.mem_singleton.mp hj1]
          rfl
    · exact h j' hj'

/-- C6: parse_tool_calls is a total function of the input text (it is a
plain Lean function: decode failures are data, not exceptions), every call
it returns carries a tool key, and a candidate that fails JSON decoding is
dropped alone: removing it from the candidate list of its pass leaves the
pass output unchanged. -/
theorem C6_thm :
    (∀ s : Str, ∀ j ∈ parse_tool_calls s, hasKey j (sl "tool") = true) ∧
    (∀ (pre post : List Str) (c : Str), jsonParse c = none →
      toolCallsOfFragments (pre ++ c :: post) = toolCallsOfFragments (pre ++ post)) ∧
    (∀ (l0 : List Json) (pre post : List (Str × Str)) (m : Str × Str),
      jsonParse m.2 = none →
      (pre ++ m :: post).foldl pass3Step l0 = (pre ++ post).foldl pass3Step l0) := by
  refine ⟨?_, ?_, ?_⟩
  · intro s j hj
    unfold parse_tool_calls at hj
    refine pass3_foldl_hasKey (findall3 s) _ ?_ j hj
    intro j' hj'
    rcases List.mem_append.mp hj' with h1 | h2
    · exact toolCallsOfFragments_hasKey _ j' h1
    · exact toolCallsOfFragments_hasKey _ j' h2
  · intro pre post c hc
    simp [toolCallsOfFragments, List.filterMap_append, List.filterMap_cons, hc]
  · intro l0 pre post m hm
    rw [List.foldl_append, List.foldl_append, List.foldl_cons]
    have : pass3Step (pre.foldl pass3Step l0) m = pre.foldl pass3Step l0 := by
      simp [pass3Step, hm]
    rw [this]

/-- Witness for C6_thm at concrete inputs (one per conjunct). -/
theorem C6_witness :
    hasKey (Json.obj [(sl "tool", Json.str (sl "ls"))]) (sl "tool") = true ∧
    toolCallsOfFragments ([] ++ (sl "nope") :: []) = toolCallsOfFragments ([] ++ []) ∧
    ([] ++ (sl "x", sl "nope") :: []).foldl pass3Step [] = ([] ++ []).foldl pass3Step [] := by
  obtain ⟨h1, h2, h3⟩ := C6_thm
  have hp : parse_tool_calls (sl "<tool_call> \x7b\"tool\": \"ls\"\x7d </tool_call>")
      = [Json.obj [(sl "tool", Json.str (sl "ls"))]] := rfl
  refine ⟨h1 (sl "<tool_call> \x7b\"tool\": \"ls\"\x7d </tool_call>") _ ?_,
    h2 [] [] (sl "nope") rfl, h3 [] [] [] (sl "x", sl "nope") rfl⟩
  rw [hp]
  simp

/-! Python string helpers used by claude_client.py and agent.py. -/

theorem isPre_ne_nil {sep t : Str} (hs : sep ≠ []) (h : isPre sep t = true) : t ≠ [] := by
  cases sep with
  | nil => exact absurd rfl hs
  | cons c cs =>
    cases t with
    | nil => simp [isPre] at h
    | cons b bs => simp

/-- Python str.split on a non-empty separator (left to right,
non-overlapping); an empty separator returns the string whole (the sources
never split on an empty separator). -/
def pySplit (sep s : Str) : List Str :=
  if hsep : sep = [] then [s]
  else
    match hf : findSub s sep with
    | none => [s]
    | some i => sub s 0 i :: pySplit sep (s.drop (i + sep.length))
termination_by s.length
decreasing_by
  have h1 := findSub_some_isPre hf
  have h2 : s.drop i ≠ [] := isPre_ne_nil hsep h1
  have h3 : ¬ s.length ≤ i := fun hle => h2 (List.drop_eq_nil_of_le hle)
  have h4 : sep.length ≠ 0 := fun h0 => hsep (List.eq_nil_of_length_eq_zero h0)
  simp only [List.length_drop]
  omega

theorem pySplit_ne_nil (sep s : Str) : pySplit sep s ≠ [] := by
  unfold pySplit
  split
  · simp
  · split <;> simp

theorem pySplit_two {sep s : Str} (hsep : sep ≠ []) (h : containsSub s sep = true) :
    2 ≤ (pySplit sep s).length := by
  unfold pySplit
  rw [dif_neg hsep]
  rcases hf : findSub s sep with _ | i
  · rw [containsSub, hf] at h
    simp at h
  · simp only [List.length_cons]
    have := pySplit_ne_nil sep (s.drop (i + sep.length))
    have : (pySplit sep (s.drop (i + sep.length))).length ≠ 0 := by
      simpa [List.length_eq_zero] using this
    omega

/-- Python str.strip with no argument (ASCII whitespace model). -/
def pyStrip (s : Str) : Str :=
  ((s.dropWhile reWs).reverse.dropWhile reWs).reverse

inductive PyErr where
  | typeErr
  | indexErr
  deriving Repr, DecidableEq

/-- Python list indexing: IndexError when out of range. -/
def pyIndex (l : List α) (i : Nat) : Except PyErr α :=
  if h : i < l.length then .ok (l.get ⟨i, h⟩) else .error .indexErr

/-!
ClaudeClient.plan and ClaudeClient.review (claude_client.py lines 174-190
and 226-241) post-process the supervisor response text with the same
extraction block; exceptions other than json.JSONDecodeError (none can
occur, as proven below) would escape the try of both methods, so the
extraction is modelled in Except.
-/

/-- The shared fenced-JSON extraction block of plan and review. -/
def planExtract (response : Str) : Except PyErr Str :=
  if containsSub response (sl "```json") then
    match pyIndex (pySplit (sl "```json") response) 1 with
    | .ok part1 => pyIndex (pySplit (sl "```") part1) 0
    | .error e => .error e
  else if containsSub response (sl "```") then
    match pyIndex (pySplit (sl "```") response) 1 with
    | .ok part1 => pyIndex (pySplit (sl "```") part1) 0
    | .error e => .error e
  else .ok response

/-- The fallback dict built by ClaudeClient.plan on decode failure. -/
def planFallback (response : Str) : Json :=
  Json.obj [(sl "plan", Json.str response), (sl "steps", Json.arr []),
    (sl "needs_more_info", Json.bool false), (sl "questions", Json.arr [])]

/-- The fallback dict built by ClaudeClient.review on decode failure. -/
def reviewFallback (response : Str) : Json :=
  Json.obj [(sl "status", Json.str (sl "completed")),
    (sl "feedback", Json.str response), (sl "next_steps", Json.arr [])]

/-- The JSON-interpretation tail of ClaudeClient.plan. -/
def planParse (response : Str) : Except PyErr Json :=
  match planExtract response with
  | .ok js =>
    match jsonParse (pyStrip js) with
    | some v => .ok v
    | none => .ok (planFallback response)
  | .error e => .error e

/-- The JSON-interpretation tail of ClaudeClient.review. -/
def reviewParse (response : Str) : Except PyErr Json :=
  match planExtract response with
  | .ok js =>
    match jsonParse (pyStrip js) with
    | some v => .ok v
    | none => .ok (reviewFallback response)
  | .error e => .error e

theorem planExtract_ok (response : Str) : ∃ s, planExtract response = .ok s := by
  unfold planExtract
  by_cases h1 : containsSub response (sl "```json") = true
  · rw [if_pos h1]
    have hlen := pySplit_two (by simp [sl]) h1
    obtain ⟨p1, hp1⟩ : ∃ p1, pyIndex (pySplit (sl "```json") response) 1 = .ok p1 := by
      unfold pyIndex
      rw [dif_pos (by omega)]
      exact ⟨_, rfl⟩
    rw [hp1]
    have hne := pySplit_ne_nil (sl "```") p1
    have hlen0 : 0 < (pySplit (sl "```") p1).length := by
      cases hp : pySplit (sl "```") p1 with
      | nil => exact absurd hp hne
      | cons a t => simp
    show ∃ s, pyIndex (pySplit (sl "```") p1) 0 = Except.ok s
    unfold pyIndex
    rw [dif_pos hlen0]
    exact ⟨_, rfl⟩
  · rw [if_neg h1]
    by_cases h2 : containsSub response (sl "```") = true
    · rw [if_pos h2]
      have hlen := pySplit_two (by simp [sl]) h2
      obtain ⟨p1, hp1⟩ : ∃ p1, pyIndex (pySplit (sl "```") response) 1 = .ok p1 := by
        unfold pyIndex
        rw [dif_pos (by omega)]
        exact ⟨_, rfl⟩
      rw [hp1]
      have hne := pySplit_ne_nil (sl "```") p1
      have hlen0 : 0 < (pySplit (sl "```") p1).length := by
        cases hp : pySplit (sl "```") p1 with
        | nil => exact absurd hp hne
        | cons a t => simp
      show ∃ s, pyIndex (pySplit (sl "```") p1) 0 = Except.ok s
      unfold pyIndex
      rw [dif_pos hlen0]
      exact ⟨_, rfl⟩
    · rw [if_neg h2]
      exact ⟨response, rfl⟩

/-- C8: the supervisor-response post-processing never raises (the fenced
extraction always succeeds, so the only caught exception source is the
JSON decode), and when the extracted text fails JSON decoding, plan
returns exactly the raw-text plan fallback and review exactly the
raw-text completed-review fallback. -/
theorem C8_thm :
    (∀ response : Str, ∃ s, planExtract response = .ok s) ∧
    (∀ response s, planExtract response = .ok s → jsonParse (pyStrip s) = none →
      planParse response = .ok (planFallback response)) ∧
    (∀ response s, planExtract response = .ok s → jsonParse (pyStrip s) = none →
      reviewParse response = .ok (reviewFallback response)) := by
  refine ⟨planExtract_ok, ?_, ?_⟩
  · intro response s hok hdec
    unfold planParse
    rw [hok]
    show (match jsonParse (pyStrip s) with
      | some v => Except.ok v
      | none => Except.ok (planFallback response)) = Except.ok (planFallback response)
    rw [hdec]
  · intro response s hok hdec
    unfold reviewParse
    rw [hok]
    show (match jsonParse (pyStrip s) with
      | some v => Except.ok v
      | none => Except.ok (reviewFallback response)) = Except.ok (reviewFallback response)
    rw [hdec]

/-- Witness for C8_thm on a concrete undecodable supervisor response. -/
theorem C8_witness :
    planParse (sl "no json here") = .ok (planFallback (sl "no json here")) ∧
    reviewParse (sl "no json here") = .ok (reviewFallback (sl "no json here")) := by
  obtain ⟨_, h2, h3⟩ := C8_thm
  exact ⟨h2 (sl "no json here") (sl "no json here") rfl rfl,
    h3 (sl "no json here") (sl "no json here") rfl rfl⟩

/-!
tools.get_tools_prompt (tools.py lines 368-415) and agent.get_system_prompt
(agent.py lines 423-439). The def statement of get_tools_prompt declares no
parameters, while get_system_prompt calls it with the keyword argument
claude_enabled; Python raises TypeError for a keyword argument that names
no declared parameter, modelled by kwargsAccepted below.
-/

/-- The (empty) parameter list of the def of tools.get_tools_prompt. -/
def get_tools_prompt_params : List Str := []

/-- The constant prompt text returned by tools.get_tools_prompt. -/
def get_tools_prompt : Str := sl "You are a code assistant. Be accurate and thorough.

## Thinking Process
ALWAYS use <think> tags to analyze before acting:

<think>
- What does the user want exactly?
- What is the exact path/file mentioned? (Use FULL path if provided)
- What tools do I need?
- What could go wrong?
</think>

Use <think> tags also when:
- A tool fails → analyze why and how to fix
- Command output needs interpretation
- Complex decisions required
- Errors occur

## Tools
- list_files: \x7b\"tool\": \"list_files\", \"args\": \x7b\"path\": \".\"\x7d\x7d
- read_file: \x7b\"tool\": \"read_file\", \"args\": \x7b\"path\": \"file.py\"\x7d\x7d
- read_file (range): \x7b\"tool\": \"read_file\", \"args\": \x7b\"path\": \"file.py\", \"line_start\": 100, \"line_end\": 150\x7d\x7d
- search_code: \x7b\"tool\": \"search_code\", \"args\": \x7b\"query\": \"keyword\"\x7d\x7d
- write_file: \x7b\"tool\": \"write_file\", \"args\": \x7b\"path\": \"file.py\", \"content\": \"...\"\x7d\x7d
- git_status: \x7b\"tool\": \"git_status\", \"args\": \x7b\"path\": \".\"\x7d\x7d
- git_diff: \x7b\"tool\": \"git_diff\", \"args\": \x7b\"path\": \".\", \"file\": \"optional.py\"\x7d\x7d
- run_command: \x7b\"tool\": \"run_command\", \"args\": \x7b\"command\": \"npm test\"\x7d\x7d

## Large File Strategy
For large files (>500 lines or truncated):
1. Use search_code to find relevant line numbers first
2. Then use read_file with line_start/line_end to read specific sections
3. Never try to read entire large files at once

## Rules
1. ALWAYS think first with <think> tags before using tools.
2. Use EXACT paths provided by user. Never shorten or modify paths.
3. If a tool fails, analyze in <think> and retry with corrected approach.
4. After task completion, give a brief summary. Don\x27t show full file contents.
5. Respond in the same language as the user. Default to Korean if unclear.
6. For file writes and commands, just call the tool. User will confirm.

## Format
\x7b\"tool\": \"tool_name\", \"args\": \x7b...\x7d\x7d
"

/-- A Python call binds only keyword arguments that name declared
parameters; any other keyword raises TypeError. -/
def kwargsAccepted (params : List Str) (kwargs : List Str) : Bool :=
  kwargs.all (fun k => params.contains k)

/-- The string built by the remainder of get_system_prompt after the
get_tools_prompt call (dead code in the source, since that call raises). -/
def sysPromptTail (summaries : List (Str × Str)) (prev_summary : Option Str) : Str :=
  sl "\n\n## Context\n"
    ++ sl "You are a code assistant. Help the user understand and modify their code.\n"
    ++ (match prev_summary with
        | some p => if p ≠ [] then sl "\n### Previous Conversation Summary\n" ++ p ++ sl "\n" else []
        | none => [])
    ++ (if summaries ≠ [] then
          sl "\n### Project File Summaries\n"
            ++ ((summaries.take 15).map (fun s =>
                  sl "\n**" ++ s.1 ++ sl "**: " ++ s.2.take 200 ++ sl "...\n")).flatten
        else [])

/-- agent.get_system_prompt: it first evaluates
get_tools_prompt(claude_enabled=claude_enabled). -/
def get_system_prompt (summaries : List (Str × Str)) (prev_summary : Option Str)
    (claude_enabled : Bool) : Except PyErr Str :=
  if kwargsAccepted get_tools_prompt_params [sl "claude_enabled"] then
    .ok (get_tools_prompt ++ sysPromptTail summaries prev_summary)
  else .error .typeErr

/-- C10: every call of get_system_prompt raises TypeError: it always passes
the keyword argument claude_enabled to get_tools_prompt, whose def declares
no parameters, so no call of get_system_prompt can return a prompt string. -/
theorem C10_thm (summaries : List (Str × Str)) (prev_summary : Option Str)
    (claude_enabled : Bool) :
    get_system_prompt summaries prev_summary claude_enabled = .error .typeErr := rfl

/-! Occurrence lemmas for the streaming think-tag demultiplexer. -/

theorem isPre_length_le {p s : Str} (h : isPre p s = true) : p.length ≤ s.length := by
  obtain ⟨t, rfl⟩ := (isPre_iff p s).mp h
  simp

theorem isPre_mono_append {p x : Str} (y : Str) (h : isPre p x = true) :
    isPre p (x ++ y) = true := by
  obtain ⟨t, rfl⟩ := (isPre_iff p x).mp h
  rw [isPre_iff]
  exact ⟨t ++ y, by simp⟩

theorem isPre_of_append_le {p x y : Str} (h : isPre p (x ++ y) = true)
    (hle : p.length ≤ x.length) : isPre p x = true := by
  obtain ⟨t, ht⟩ := (isPre_iff p (x ++ y)).mp h
  rw [isPre_iff]
  refine ⟨x.drop p.length, ?_⟩
  have h1 : (x ++ y).take p.length = p := by
    rw [ht, List.take_append_eq_append_take, List.take_length,
      Nat.sub_self, List.take_zero, List.append_nil]
  have h2 : (x ++ y).take p.length = x.take p.length := by
    rw [List.take_append_eq_append_take, Nat.sub_eq_zero_of_le hle, List.take_zero,
      List.append_nil]
  conv_lhs => rw [← List.take_append_drop p.length x]
  rw [← h2, h1]

theorem findSub_eq_some {s n : Str} {i : Nat} (hocc : isPre n (s.drop i) = true)
    (hmin : ∀ j, j < i → isPre n (s.drop j) = false) : findSub s n = some i := by
  cases hf : findSub s n with
  | none =>
    rw [findSub_none hf i] at hocc
    cases hocc
  | some i' =>
    have hocc' := findSub_some_isPre hf
    have h1 : ¬ i < i' := fun hlt => by rw [findSub_some_min hf i hlt] at hocc; cases hocc
    have h2 : ¬ i' < i := fun hlt => by rw [hmin i' hlt] at hocc'; cases hocc'
    have : i = i' := by omega
    rw [this]

theorem findSub_eq_none {s n : Str} (h : ∀ j, isPre n (s.drop j) = false) :
    findSub s n = none := by
  cases hf : findSub s n with
  | none => rfl
  | some i =>
    have := findSub_some_isPre hf
    rw [h i] at this
    cases this

theorem findSub_append_left {a c M : Str} {i : Nat} (hf : findSub a M = some i)
    (hM : M ≠ []) : findSub (a ++ c) M = some i := by
  have hocc := findSub_some_isPre hf
  have hlen : M.length ≤ a.length - i := by
    have := isPre_length_le hocc
    simpa using this
  have hia : i < a.length := by
    have hne : a.drop i ≠ [] := isPre_ne_nil hM hocc
    have : ¬ a.length ≤ i := fun hle => hne (List.drop_eq_nil_of_le hle)
    omega
  apply findSub_eq_some
  · rw [List.drop_append_of_le_length (by omega)]
    exact isPre_mono_append c hocc
  · intro j hj
    have hja : j < a.length := by omega
    rw [List.drop_append_of_le_length (by omega)]
    cases hp : isPre M (a.drop j ++ c) with
    | false => rfl
    | true =>
      have : isPre M (a.drop j) = true := by
        refine isPre_of_append_le hp ?_
        simp only [List.length_drop]
        omega
      rw [findSub_some_min hf j hj] at this
      cases this

theorem findSub_drop_of_none {a M : Str} (d : Nat) (h : findSub a M = none) :
    findSub (a.drop d) M = none := by
  apply findSub_eq_none
  intro j
  rw [List.drop_drop]
  exact findSub_none h (d + j)

theorem findSub_shift_of_no_early {s M : Str} {d : Nat}
    (h : ∀ j, j < d → isPre M (s.drop j) = false) :
    findSub s M = (findSub (s.drop d) M).map (· + d) := by
  cases hf : findSub (s.drop d) M with
  | none =>
    apply findSub_eq_none
    intro j
    by_cases hj : j < d
    · exact h j hj
    · have h1 := findSub_none hf (j - d)
      rw [List.drop_drop, show d + (j - d) = j by omega] at h1
      exact h1
  | some k =>
    show findSub s M = some (k + d)
    apply findSub_eq_some
    · have h1 := findSub_some_isPre hf
      rw [List.drop_drop, show d + k = k + d by omega] at h1
      exact h1
    · intro j hj
      by_cases hjd : j < d
      · exact h j hjd
      · have h1 := findSub_some_min hf (j - d) (by omega)
        rw [List.drop_drop, show d + (j - d) = j by omega] at h1
        exact h1

/-- No proper nonempty suffix of m is a prefix of m. -/
def noBorder (m : Str) : Bool :=
  (List.range m.length).all (fun k => (k == 0) || !(isPre (m.drop k) m))

theorem noBorder_spec {M : Str} (h : noBorder M = true) :
    ∀ k, 0 < k → k < M.length → isPre (M.drop k) M = false := by
  intro k h0 hk
  have := (List.all_eq_true.mp h) k (List.mem_range.mpr hk)
  rcases Bool.or_eq_true_iff.mp this with h1 | h2
  · exact absurd (beq_iff_eq.mp h1) (by omega)
  · simpa using h2

/-- First occurrence of a border-free marker in "clean prefix, then marker,
then anything" is exactly at the end of the clean prefix. -/
theorem findSub_assemble {v M rest : Str} (hv : findSub v M = none)
    (hb : noBorder M = true) (hM : M ≠ []) :
    findSub (v ++ (M ++ rest)) M = some v.length := by
  apply findSub_eq_some
  · rw [List.drop_append_of_le_length (by omega), List.drop_length]
    simpa using isPre_refl_append M rest
  · intro j hj
    rw [List.drop_append_of_le_length (by omega)]
    cases hp : isPre M (v.drop j ++ (M ++ rest)) with
    | false => rfl
    | true =>
      exfalso
      by_cases hcase : M.length ≤ v.length - j
      · have : isPre M (v.drop j) = true := by
          refine isPre_of_append_le hp ?_
          simpa using hcase
        rw [findSub_none hv j] at this
        cases this
      · set k := v.length - j with hkdef
        have hk0 : 0 < k := by omega
        have hkM : k < M.length := by omega
        have hlenvj : (v.drop j).length = k := by
          simp only [List.length_drop, hkdef]
        have htake : (v.drop j ++ (M ++ rest)).take M.length = M := by
          obtain ⟨t, ht⟩ := (isPre_iff M _).mp hp
          rw [ht, List.take_append_eq_append_take, List.take_length,
            Nat.sub_self, List.take_zero, List.append_nil]
        have htake2 : (v.drop j ++ (M ++ rest)).take M.length
            = v.drop j ++ M.take (M.length - k) := by
          rw [List.take_append_eq_append_take, hlenvj,
            List.take_of_length_le (by omega : (v.drop j).length ≤ M.length),
            List.take_append_eq_append_take,
            show M.length - k - M.length = 0 by omega,
            List.take_zero, List.append_nil]
        have hM2 : M = v.drop j ++ M.take (M.length - k) := htake.symm.trans htake2
        have hdrop_append : ∀ (x y : Str), x.length = k → (x ++ y).drop k = y := by
          intro x y hx
          rw [← hx, List.drop_left]
        have hdropk : M.drop k = M.take (M.length - k) := by
          conv_lhs => rw [hM2]
          exact hdrop_append _ _ hlenvj
        have hpref : isPre (M.take (M.length - k)) M = true := by
          rw [isPre_iff]
          exact ⟨M.drop (M.length - k), (List.take_append_drop _ M).symm⟩
        have : isPre (M.drop k) M = true := by rw [hdropk]; exact hpref
        rw [noBorder_spec hb k hk0 hkM] at this
        cases this

/-!
The think-tag streaming demultiplexer of agent_chat (agent.py lines
192-237): per token event the chunk is appended to a lookback buffer and an
inner while-loop repeatedly searches the buffer for the next marker of the
current mode, flushing text before a found marker (styled by the current
mode) and otherwise flushing all but the last 10 characters; the done event
flushes the remaining buffer in the current mode. Outputs are (text, dim)
pairs; dim output corresponds to print_token(..., dim=True).
-/

def thinkOpen : Str := sl "<think>"

def thinkClose : Str := sl "</think>"

/-- The marker searched for in the given mode (mode true = in_think_mode). -/
def markerOf (mode : Bool) : Str := if mode then thinkClose else thinkOpen

theorem markerOf_length_pos (mode : Bool) : 0 < (markerOf mode).length := by
  cases mode <;> decide

theorem markerOf_length_le (mode : Bool) : (markerOf mode).length ≤ 10 := by
  cases mode <;> decide

theorem markerOf_ne_nil (mode : Bool) : markerOf mode ≠ [] := by
  cases mode <;> decide

theorem markerOf_noBorder (mode : Bool) : noBorder (markerOf mode) = true := by
  cases mode <;> decide

/-- The conditional print_token of a flushed span (skipped when empty, as in
the if-before and if-thinking guards of the source). -/
def emit (x : Str) (mo : Bool) : List (Str × Bool) :=
  if x ≠ [] then [(x, mo)] else []

/-- The inner while-loop of the token-event handler. -/
def procBuf (mode : Bool) (buf : Str) : List (Str × Bool) × Bool × Str :=
  match hf : findSub buf (markerOf mode) with
  | some i =>
    match procBuf (!mode) (buf.drop (i + (markerOf mode).length)) with
    | (outs, st) => (emit (buf.take i) mode ++ outs, st)
  | none =>
    if buf.length > 10 then
      ([(buf.take (buf.length - 10), mode)], mode, buf.drop (buf.length - 10))
    else ([], mode, buf)
termination_by buf.length
decreasing_by
  have hocc := findSub_some_isPre hf
  have hne : buf.drop i ≠ [] := isPre_ne_nil (markerOf_ne_nil mode) hocc
  have hlt : ¬ buf.length ≤ i := fun hle => hne (List.drop_eq_nil_of_le hle)
  have hpos := markerOf_length_pos mode
  simp only [List.length_drop]
  omega

/-- One token event: append the chunk to the buffer and run the inner loop. -/
def feedChunk (st : Bool × Str) (chunk : Str) : List (Str × Bool) × (Bool × Str) :=
  match procBuf st.1 (st.2 ++ chunk) with
  | (outs, m, b) => (outs, (m, b))

/-- Process a list of token events. -/
def runChunks (st : Bool × Str) : List Str → List (Str × Bool) × (Bool × Str)
  | [] => ([], st)
  | c :: cs =>
    match feedChunk st c with
    | (o1, st1) =>
      match runChunks st1 cs with
      | (o2, st2) => (o1 ++ o2, st2)

def visibleOf (outs : List (Str × Bool)) : Str :=
  (outs.filterMap (fun o => if o.2 then none else some o.1)).flatten

def dimOf (outs : List (Str × Bool)) : Str :=
  (outs.filterMap (fun o => if o.2 then some o.1 else none)).flatten

/-- The done-event flush appended to the collected outputs. -/
def finishOuts (outs : List (Str × Bool)) (st : Bool × Str) : List (Str × Bool) :=
  outs ++ (if st.2 ≠ [] then [(st.2, st.1)] else [])

/-- Visible and dimmed text produced by streaming the chunks through the
demultiplexer from the initial state and flushing at the done event. -/
def demux (chunks : List Str) : Str × Str :=
  match runChunks (false, []) chunks with
  | (outs, st) => (visibleOf (finishOuts outs st), dimOf (finishOuts outs st))

theorem visibleOf_append (a b : List (Str × Bool)) :
    visibleOf (a ++ b) = visibleOf a ++ visibleOf b := by
  simp [visibleOf, List.filterMap_append]

theorem dimOf_append (a b : List (Str × Bool)) :
    dimOf (a ++ b) = dimOf a ++ dimOf b := by
  simp [dimOf, List.filterMap_append]

theorem procBuf_found {mode : Bool} {buf : Str} {i : Nat}
    (hf : findSub buf (markerOf mode) = some i) :
    procBuf mode buf =
      (emit (buf.take i) mode
          ++ (procBuf (!mode) (buf.drop (i + (markerOf mode).length))).1,
        (procBuf (!mode) (buf.drop (i + (markerOf mode).length))).2) := by
  rw [procBuf]
  split
  · rename_i i' hf'
    rw [hf] at hf'
    cases hf'
    rfl
  · rename_i hf'
    rw [hf] at hf'
    cases hf'

theorem procBuf_none_long {mode : Bool} {buf : Str}
    (hf : findSub buf (markerOf mode) = none) (hl : buf.length > 10) :
    procBuf mode buf
      = ([(buf.take (buf.length - 10), mode)], mode, buf.drop (buf.length - 10)) := by
  rw [procBuf]
  split
  · rename_i i' hf'
    rw [hf] at hf'
    cases hf'
  · rw [if_pos hl]

theorem procBuf_none_short {mode : Bool} {buf : Str}
    (hf : findSub buf (markerOf mode) = none) (hl : ¬ buf.length > 10) :
    procBuf mode buf = ([], mode, buf) := by
  rw [procBuf]
  split
  · rename_i i' hf'
    rw [hf] at hf'
    cases hf'
  · rw [if_neg hl]

/-- Between token events the buffer is at most the 10-character lookback
and contains no marker of the current mode. -/
theorem procBuf_state : ∀ (n : Nat) (buf : Str), buf.length ≤ n → ∀ (mode : Bool),
    (procBuf mode buf).2.2.length ≤ 10 ∧
    findSub (procBuf mode buf).2.2 (markerOf (procBuf mode buf).2.1) = none := by
  intro n
  induction n with
  | zero =>
    intro buf hlen mode
    have hbuf : buf = [] := List.eq_nil_of_length_eq_zero (by omega)
    subst hbuf
    have hf : findSub ([] : Str) (markerOf mode) = none := by
      apply findSub_eq_none
      intro j
      cases hmo : markerOf mode with
      | nil => exact absurd hmo (markerOf_ne_nil mode)
      | cons c cs => simp [isPre]
    rw [procBuf_none_short hf (by simp)]
    exact ⟨by simp, hf⟩
  | succ n ih =>
    intro buf hlen mode
    cases hf : findSub buf (markerOf mode) with
    | some i =>
      rw [procBuf_found hf]
      have hocc := findSub_some_isPre hf
      have hne : buf.drop i ≠ [] := isPre_ne_nil (markerOf_ne_nil mode) hocc
      have hlt : ¬ buf.length ≤ i := fun hle => hne (List.drop_eq_nil_of_le hle)
      have hpos := markerOf_length_pos mode
      exact ih (buf.drop (i + (markerOf mode).length))
        (by simp only [List.length_drop]; omega) (!mode)
    | none =>
      by_cases hl : buf.length > 10
      · rw [procBuf_none_long hf hl]
        refine ⟨by simp only [List.length_drop]; omega, ?_⟩
        exact findSub_drop_of_none _ hf
      · rw [procBuf_none_short hf hl]
        exact ⟨by show buf.length ≤ 10; omega, hf⟩

theorem visibleOf_emit (x : Str) (mo : Bool) :
    visibleOf (emit x mo) = if mo then [] else x := by
  unfold emit visibleOf
  by_cases hx : x = [] <;> cases mo <;> simp [hx]

theorem dimOf_emit (x : Str) (mo : Bool) :
    dimOf (emit x mo) = if mo then x else [] := by
  unfold emit dimOf
  by_cases hx : x = [] <;> cases mo <;> simp [hx]

theorem visibleOf_single (x : Str) (mo : Bool) :
    visibleOf [(x, mo)] = if mo then [] else x := by
  cases mo <;> simp [visibleOf]

theorem dimOf_single (x : Str) (mo : Bool) :
    dimOf [(x, mo)] = if mo then x else [] := by
  cases mo <;> simp [dimOf]

/-- Processing buffer a and then feeding c to the resulting state produces
the same concatenated visible and dimmed text, and the same final state, as
processing a ++ c in one piece: the lookback makes processing insensitive
to the chunk boundary. -/
theorem procBuf_merge : ∀ (n : Nat) (a : Str), a.length ≤ n →
    ∀ (m : Bool) (c : Str) (o1 : List (Str × Bool)) (m1 : Bool) (b1 : Str)
      (o2 : List (Str × Bool)) (st2 : Bool × Str)
      (o : List (Str × Bool)) (st : Bool × Str),
    procBuf m a = (o1, m1, b1) →
    procBuf m1 (b1 ++ c) = (o2, st2) →
    procBuf m (a ++ c) = (o, st) →
    visibleOf (o1 ++ o2) = visibleOf o ∧ dimOf (o1 ++ o2) = dimOf o ∧ st2 = st := by
  intro n
  induction n with
  | zero =>
    intro a hlen m c o1 m1 b1 o2 st2 o st h1 h2 h3
    have ha : a = [] := List.eq_nil_of_length_eq_zero (by omega)
    subst ha
    have hf : findSub ([] : Str) (markerOf m) = none := by
      apply findSub_eq_none
      intro j
      cases hmo : markerOf m with
      | nil => exact absurd hmo (markerOf_ne_nil m)
      | cons ch cs => simp [isPre]
    rw [procBuf_none_short hf (by simp)] at h1
    cases h1
    simp only [List.nil_append] at h2 h3
    rw [h2] at h3
    cases h3
    exact ⟨by simp, by simp, rfl⟩
  | succ n ih =>
    intro a hlen m c o1 m1 b1 o2 st2 o st h1 h2 h3
    rcases hfA : findSub a (markerOf m) with _ | i
    · -- no marker in a
      by_cases hl : a.length > 10
      · -- flush all but last 10, then feed
        set L := (markerOf m).length with hLdef
        have hL10 := markerOf_length_le m
        have hLpos := markerOf_length_pos m
        set d := a.length - 10 with hddef
        rw [procBuf_none_long hfA hl] at h1
        cases h1
        -- h2 : procBuf m (a.drop d ++ c) = (o2, st2)
        have hdrop : (a ++ c).drop d = a.drop d ++ c :=
          List.drop_append_of_le_length (by omega)
        have htaked : (a ++ c).take d = a.take d := by
          rw [List.take_append_eq_append_take,
            show d - a.length = 0 by omega, List.take_zero, List.append_nil]
        have hearly : ∀ j, j < d → isPre (markerOf m) ((a ++ c).drop j) = false := by
          intro j hj
          rw [List.drop_append_of_le_length (by omega)]
          cases hp : isPre (markerOf m) (a.drop j ++ c) with
          | false => rfl
          | true =>
            have : isPre (markerOf m) (a.drop j) = true := by
              refine isPre_of_append_le hp ?_
              simp only [List.length_drop]
              omega
            rw [findSub_none hfA j] at this
            cases this
        have hshift := findSub_shift_of_no_early hearly
        rw [hdrop] at hshift
        rcases hfB : findSub (a.drop d ++ c) (markerOf m) with _ | k
        · -- no marker in the whole stream either
          rw [hfB] at hshift
          simp only [Option.map] at hshift
          by_cases hc : c = []
          · subst hc
            rw [List.append_nil] at h2
            have hlen10 : ¬ (a.drop d).length > 10 := by
              simp only [List.length_drop]
              omega
            rw [procBuf_none_short (findSub_drop_of_none d hfA) hlen10] at h2
            cases h2
            rw [List.append_nil] at h3
            rw [procBuf_none_long hfA hl] at h3
            cases h3
            refine ⟨?_, ?_, rfl⟩ <;> simp
          · have hlenBC : (a.drop d ++ c).length > 10 := by
              simp only [List.length_append, List.length_drop]
              have : c.length ≠ 0 := by
                simpa [List.length_eq_zero] using hc
              omega
            rw [procBuf_none_long hfB hlenBC] at h2
            cases h2
            have hlenAC : (a ++ c).length > 10 := by
              simp only [List.length_append]
              omega
            rw [procBuf_none_long hshift hlenAC] at h3
            cases h3
            have hd2 : (a.drop d ++ c).length - 10 = c.length := by
              simp only [List.length_append, List.length_drop]
              omega
            have hdAC : (a ++ c).length - 10 = d + c.length := by
              simp only [List.length_append]
              omega
            have htk : (a ++ c).take ((a ++ c).length - 10)
                = a.take d ++ (a.drop d ++ c).take ((a.drop d ++ c).length - 10) := by
              rw [hd2, hdAC, List.take_add, htaked, hdrop]
            have hst : (a.drop d ++ c).drop ((a.drop d ++ c).length - 10)
                = (a ++ c).drop ((a ++ c).length - 10) := by
              rw [hd2, hdAC, ← hdrop, List.drop_drop]
            refine ⟨?_, ?_, by rw [hst]⟩
            · rw [visibleOf_append, visibleOf_single, visibleOf_single,
                visibleOf_single, htk]
              cases m <;> simp
            · rw [dimOf_append, dimOf_single, dimOf_single, dimOf_single, htk]
              cases m <;> simp
        · -- marker found at or after the chunk boundary
          rw [hfB] at hshift
          simp only [Option.map_some'] at hshift
          rw [procBuf_found hfB] at h2
          rw [procBuf_found hshift] at h3
          have hdd : (a.drop d ++ c).drop (k + (markerOf m).length)
              = (a ++ c).drop (k + d + (markerOf m).length) := by
            rw [← hdrop, List.drop_drop,
              show d + (k + (markerOf m).length) = k + d + (markerOf m).length by omega]
          have htk : (a ++ c).take (k + d) = a.take d ++ (a.drop d ++ c).take k := by
            rw [show k + d = d + k by omega, List.take_add, htaked, hdrop]
          rcases hr : procBuf (!m) ((a ++ c).drop (k + d + (markerOf m).length))
            with ⟨oR, stR⟩
          rw [hdd, hr] at h2
          rw [hr] at h3
          cases h2
          cases h3
          refine ⟨?_, ?_, rfl⟩
          · rw [visibleOf_append, visibleOf_append, visibleOf_append,
              visibleOf_single, visibleOf_emit, visibleOf_emit, htk]
            cases m <;> simp
          · rw [dimOf_append, dimOf_append, dimOf_append,
              dimOf_single, dimOf_emit, dimOf_emit, htk]
            cases m <;> simp
      · -- buffer kept whole; feeding c is literally processing a ++ c
        rw [procBuf_none_short hfA hl] at h1
        cases h1
        rw [h2] at h3
        cases h3
        exact ⟨by simp, by simp, rfl⟩
    · -- marker inside a
      have hLpos := markerOf_length_pos m
      have hocc := findSub_some_isPre hfA
      have hiL : i + (markerOf m).length ≤ a.length := by
        have := isPre_length_le hocc
        simp only [List.length_drop] at this
        have hne : a.drop i ≠ [] := isPre_ne_nil (markerOf_ne_nil m) hocc
        have : ¬ a.length ≤ i := fun hle => hne (List.drop_eq_nil_of_le hle)
        omega
      have hAC : findSub (a ++ c) (markerOf m) = some i :=
        findSub_append_left hfA (markerOf_ne_nil m)
      rw [procBuf_found hfA] at h1
      rw [procBuf_found hAC] at h3
      have hdropEq : (a ++ c).drop (i + (markerOf m).length)
          = a.drop (i + (markerOf m).length) ++ c :=
        List.drop_append_of_le_length hiL
      have htakeEq : (a ++ c).take i = a.take i := by
        rw [List.take_append_eq_append_take, show i - a.length = 0 by omega,
          List.take_zero, List.append_nil]
      rcases hrA : procBuf (!m) (a.drop (i + (markerOf m).length)) with ⟨oA, mA, bA⟩
      rw [hrA] at h1
      cases h1
      rcases hrAC : procBuf (!m) (a.drop (i + (markerOf m).length) ++ c) with ⟨oC, stC⟩
      rw [hdropEq, hrAC] at h3
      cases h3
      obtain ⟨hv, hd, hs⟩ := ih (a.drop (i + (markerOf m).length))
        (by simp only [List.length_drop]; omega)
        (!m) c oA m1 b1 o2 st2 oC stC hrA h2 hrAC
      refine ⟨?_, ?_, hs⟩
      · rw [List.append_assoc, visibleOf_append, hv, htakeEq, visibleOf_append]
      · rw [List.append_assoc, dimOf_append, hd, htakeEq, dimOf_append]

/-- Chunking invariance: streaming any chunk list from a between-events
state is equivalent (same visible text, same dimmed text, same final state)
to processing the whole concatenation as one token. -/
theorem runChunks_flatten : ∀ (chunks : List Str) (m : Bool) (b : Str),
    b.length ≤ 10 → findSub b (markerOf m) = none →
    ∀ o st o' st', runChunks (m, b) chunks = (o, st) →
      procBuf m (b ++ chunks.flatten) = (o', st') →
      visibleOf o = visibleOf o' ∧ dimOf o = dimOf o' ∧ st = st' := by
  intro chunks
  induction chunks with
  | nil =>
    intro m b hlen hfree o st o' st' h1 h2
    simp only [runChunks] at h1
    cases h1
    rw [List.flatten_nil, List.append_nil,
      procBuf_none_short hfree (by omega)] at h2
    cases h2
    exact ⟨rfl, rfl, rfl⟩
  | cons ch cs ih =>
    intro m b hlen hfree o st o' st' h1 h2
    rcases hfc : procBuf m (b ++ ch) with ⟨o1, m1, b1⟩
    have hfeed : feedChunk (m, b) ch = (o1, (m1, b1)) := by
      unfold feedChunk
      rw [hfc]
    simp only [runChunks, hfeed] at h1
    rcases hrc : runChunks (m1, b1) cs with ⟨o2, st2⟩
    rw [hrc] at h1
    cases h1
    have hinv := procBuf_state (b ++ ch).length (b ++ ch) (le_refl _) m
    rw [hfc] at hinv
    rcases hff : procBuf m1 (b1 ++ cs.flatten) with ⟨oF, stF⟩
    obtain ⟨ihv, ihd, ihst⟩ := ih m1 b1 hinv.1 hinv.2 o2 st2 oF stF hrc hff
    have hflat : b ++ (ch :: cs).flatten = (b ++ ch) ++ cs.flatten := by
      rw [List.flatten_cons, ← List.append_assoc]
    rw [hflat] at h2
    obtain ⟨mv, md, mst⟩ := procBuf_merge (b ++ ch).length (b ++ ch) (le_refl _)
      m cs.flatten o1 m1 b1 oF stF o' st' hfc hff h2
    refine ⟨?_, ?_, by rw [ihst, mst]⟩
    · rw [visibleOf_append, ihv, ← visibleOf_append, mv]
    · rw [dimOf_append, ihd, ← dimOf_append, md]

/-!
The specification side of the think-tag demultiplexer: a balanced stream is
a list of (visible, thinking) span pairs followed by a final visible tail,
where visible spans contain no opening marker and thinking spans no closing
marker.
-/

def assemble : List (Str × Str) → Str → Str
  | [], vLast => vLast
  | (v, t) :: rest, vLast =>
    v ++ (thinkOpen ++ (t ++ (thinkClose ++ assemble rest vLast)))

def visSpec : List (Str × Str) → Str → Str
  | [], vLast => vLast
  | (v, _) :: rest, vLast => v ++ visSpec rest vLast

def dimSpec : List (Str × Str) → Str
  | [] => []
  | (_, t) :: rest => t ++ dimSpec rest

theorem markerOf_false : markerOf false = thinkOpen := rfl

theorem markerOf_true : markerOf true = thinkClose := rfl

/-- Single-buffer correctness on a balanced stream, including the
done-event flush. -/
theorem procBuf_assemble : ∀ (pairs : List (Str × Str)) (vLast : Str),
    (∀ p ∈ pairs, findSub p.1 thinkOpen = none) →
    (∀ p ∈ pairs, findSub p.2 thinkClose = none) →
    findSub vLast thinkOpen = none →
    ∀ o st, procBuf false (assemble pairs vLast) = (o, st) →
      visibleOf (finishOuts o st) = visSpec pairs vLast ∧
      dimOf (finishOuts o st) = dimSpec pairs := by
  intro pairs
  induction pairs with
  | nil =>
    intro vLast _ _ hlast o st h
    simp only [assemble] at h
    by_cases hl : vLast.length > 10
    · rw [procBuf_none_long (by rw [markerOf_false]; exact hlast) hl] at h
      cases h
      have hdne : vLast.drop (vLast.length - 10) ≠ [] := by
        intro hnil
        have := congrArg List.length hnil
        simp only [List.length_drop, List.length_nil] at this
        omega
      have hfo : finishOuts [(vLast.take (vLast.length - 10), false)]
          (false, vLast.drop (vLast.length - 10))
          = [(vLast.take (vLast.length - 10), false),
             (vLast.drop (vLast.length - 10), false)] := by
        simp [finishOuts, hdne]
      rw [hfo]
      constructor
      · show visibleOf _ = visSpec [] vLast
        simp only [visibleOf, visSpec, List.filterMap]
        simp [List.take_append_drop]
      · show dimOf _ = dimSpec []
        simp [dimOf, dimSpec]
    · rw [procBuf_none_short (by rw [markerOf_false]; exact hlast) hl] at h
      cases h
      constructor
      · show visibleOf (finishOuts [] (false, vLast)) = visSpec [] vLast
        by_cases hd : vLast = [] <;>
          simp [finishOuts, hd, visibleOf, visSpec]
      · show dimOf (finishOuts [] (false, vLast)) = dimSpec []
        by_cases hd : vLast = [] <;>
          simp [finishOuts, hd, dimOf, dimSpec]
  | cons p rest ih =>
    intro vLast hv ht hlast o st h
    rcases p with ⟨v, t⟩
    simp only [assemble] at h
    have hvfree : findSub v thinkOpen = none := hv (v, t) (by simp)
    have htfree : findSub t thinkClose = none := ht (v, t) (by simp)
    have hopen : findSub (v ++ (thinkOpen ++ (t ++ (thinkClose ++ assemble rest vLast))))
        (markerOf false) = some v.length := by
      rw [markerOf_false]
      exact findSub_assemble hvfree (markerOf_noBorder false) (markerOf_ne_nil false)
    rw [procBuf_found hopen] at h
    have htake1 : (v ++ (thinkOpen ++ (t ++ (thinkClose ++ assemble rest vLast)))).take
        v.length = v := List.take_left v _
    have hdrop1 : (v ++ (thinkOpen ++ (t ++ (thinkClose ++ assemble rest vLast)))).drop
        (v.length + (markerOf false).length)
        = t ++ (thinkClose ++ assemble rest vLast) := by
      rw [markerOf_false, ← List.length_append v thinkOpen, ← List.append_assoc,
        List.drop_left]
    rw [htake1, hdrop1, show (!false) = true from rfl] at h
    have hclose : findSub (t ++ (thinkClose ++ assemble rest vLast)) (markerOf true)
        = some t.length := by
      rw [markerOf_true]
      exact findSub_assemble htfree (markerOf_noBorder true) (markerOf_ne_nil true)
    rw [procBuf_found hclose] at h
    have htake2 : (t ++ (thinkClose ++ assemble rest vLast)).take t.length = t :=
      List.take_left t _
    have hdrop2 : (t ++ (thinkClose ++ assemble rest vLast)).drop
        (t.length + (markerOf true).length) = assemble rest vLast := by
      rw [markerOf_true, ← List.length_append t thinkClose, ← List.append_assoc,
        List.drop_left]
    rw [htake2, hdrop2, show (!true) = false from rfl] at h
    rcases hrest : procBuf false (assemble rest vLast) with ⟨oR, stR⟩
    rw [hrest] at h
    cases h
    obtain ⟨ihv, ihd⟩ := ih vLast (fun q hq => hv q (by simp [hq]))
      (fun q hq => ht q (by simp [hq])) hlast oR stR hrest
    have hfo : finishOuts (emit v false ++ (emit t true ++ oR)) stR
        = emit v false ++ (emit t true ++ finishOuts oR stR) := by
      simp [finishOuts, List.append_assoc]
    rw [hfo]
    constructor
    · rw [visibleOf_append, visibleOf_append, visibleOf_emit, visibleOf_emit, ihv]
      simp [visSpec]
    · rw [dimOf_append, dimOf_append, dimOf_emit, dimOf_emit, ihd]
      simp [dimSpec]

theorem findSub_nil {n : Str} (hn : n ≠ []) : findSub [] n = none := by
  unfold findSub findSubFrom
  rw [if_neg hn]

/-- C5: think-tag demux. For every token stream whose concatenation is a
balanced alternation of visible spans (free of the opening marker) and
marker-delimited thinking spans (free of the closing marker), the streaming
demultiplexer emits as visible text exactly the concatenation of the
visible spans (the input with the marker-delimited spans and markers
removed) and as dimmed text exactly the concatenation of the thinking
spans, independently of how the stream is split into chunks. -/
theorem C5_thm (chunks : List Str) (pairs : List (Str × Str)) (vLast : Str)
    (hv : ∀ p ∈ pairs, findSub p.1 thinkOpen = none)
    (ht : ∀ p ∈ pairs, findSub p.2 thinkClose = none)
    (hlast : findSub vLast thinkOpen = none)
    (hcat : chunks.flatten = assemble pairs vLast) :
    demux chunks = (visSpec pairs vLast, dimSpec pairs) := by
  have hnil : findSub ([] : Str) (markerOf false) = none :=
    findSub_nil (markerOf_ne_nil false)
  rcases hrc : runChunks (false, []) chunks with ⟨outs, st⟩
  rcases hpb : procBuf false (assemble pairs vLast) with ⟨o', st'⟩
  have hpb' : procBuf false (([] : Str) ++ chunks.flatten) = (o', st') := by
    rw [List.nil_append, hcat]
    exact hpb
  obtain ⟨hvv, hdd, hss⟩ :=
    runChunks_flatten chunks false [] (by simp) hnil outs st o' st' hrc hpb'
  obtain ⟨hsv, hsd⟩ := procBuf_assemble pairs vLast hv ht hlast o' st' hpb
  have hdm : demux chunks = (visibleOf (finishOuts outs st), dimOf (finishOuts outs st)) := by
    unfold demux
    rw [hrc]
  have h1 : visibleOf (finishOuts outs st) = visibleOf (finishOuts o' st') := by
    rw [finishOuts, finishOuts, visibleOf_append, visibleOf_append, hvv, hss]
  have h2 : dimOf (finishOuts outs st) = dimOf (finishOuts o' st') := by
    rw [finishOuts, finishOuts, dimOf_append, dimOf_append, hdd, hss]
  rw [hdm, h1, h2, hsv, hsd]

/-- Witness for C5_thm: both markers split across chunk boundaries. -/
theorem C5_witness :
    demux [sl "ab<thi", sl "nk>cd</th", sl "ink>ef"] = (sl "abef", sl "cd") := by
  have h := C5_thm [sl "ab<thi", sl "nk>cd</th", sl "ink>ef"]
    [(sl "ab", sl "cd")] (sl "ef")
    (by decide) (by decide) (by decide) (by decide)
  exact h.trans (by decide)

/-!
The agent loop (agent.py agent_chat, lines 93-420) and the tool handlers it
drives (tools.py). The outside world is modelled explicitly:
  World      : the filesystem (resolved path to file content) plus the trace
               of subprocesses actually spawned by the loop;
  Env        : oracles for everything the loop consumes interactively - the
               model token stream per iteration, the index at which the ESC
               cancellation flag is observed per iteration, the successive
               Confirm.ask answers, shell-command outcomes, the results of
               the read-only scanning tools (list_files, search_code,
               git_status, git_diff, modelled as oracles; the git handlers
               spawn git subprocesses internally, which this model leaves
               outside the spawn trace), and ask_claude chat responses.
The supervisor hand-off branches (run_with_claude and its detection,
agent.py lines 122-144 and 253-283) are modelled as an env oracle; every
theorem below is about runs with claude disabled, where the source skips
those branches entirely.
-/

structure Message where
  role : Str
  content : Str
  deriving Repr

inductive Spawn where
  | shell (command : Str) (cwd : Str) (timeout : Int)
  deriving Repr

structure World where
  fs : List (Str × Str)
  spawned : List Spawn

inductive StreamEvent where
  | token (content : Str)
  | errorEv (message : Str)
  | doneEv
  deriving Repr

inductive ShellOutcome where
  | finished (returncode : Int) (output : Str)
  | timedOut

structure Env where
  stream : Nat → List StreamEvent
  cancelAt : Nat → Option Nat
  confirm : Nat → Bool
  shellRun : Nat → ShellOutcome
  extTool : Nat → Json
  claudeChat : Nat → Str
  preHandoff : Option (Str × List Message)
  handoff : Nat → Option (Str × List Message)
  cwd : Str

structure ClaudeCfg where
  enabled : Bool
  approved : Bool
  hasClient : Bool

/-- Mutable counters of one agent_chat invocation: the world plus how many
confirmations, shell runs, external-tool calls and claude questions have
been consumed from the env oracles. -/
structure LoopSt where
  world : World
  confirmK : Nat
  shellK : Nat
  extK : Nat
  claudeK : Nat

def MAX_ITERATIONS : Nat := 10

/-! Path and filesystem helpers (posix model, normalized inputs). -/

def is_absolute (p : Str) : Bool :=
  match p with
  | '/' :: _ => true
  | _ => false

/-- str(base_path / p) for a relative p (PurePosixPath join; a base of "."
disappears, as Path(".") / "x" is Path("x")). -/
def pathJoin (base p : Str) : Str :=
  if base = sl "." then p else base ++ '/' :: p

/-- Path(p).resolve() for normalized symlink-free paths. -/
def resolvePath (cwd p : Str) : Str :=
  if is_absolute p then p else pathJoin cwd p

def lookupFs (fs : List (Str × Str)) (p : Str) : Option Str :=
  (fs.find? (fun e => e.1 == p)).map (·.2)

/-- Filesystem write: replace or append. -/
def setFs (fs : List (Str × Str)) (p : Str) (content : Str) : List (Str × Str) :=
  if fs.any (fun e => e.1 == p) then
    fs.map (fun e => if e.1 == p then (p, content) else e)
  else fs ++ [(p, content)]

def lowerStr (s : Str) : Str := s.map Char.toLower

/-- Python str.split on newline. -/
def splitNl : Str → List Str
  | [] => [[]]
  | c :: t =>
    if c = '\n' then [] :: splitNl t
    else
      match splitNl t with
      | p :: ps => (c :: p) :: ps
      | [] => [[c]]

/-- Python newline join. -/
def joinNl : List Str → Str
  | [] => []
  | [x] => x
  | x :: xs => x ++ '\n' :: joinNl xs

/-- Python slice l with a nonnegative start and a possibly negative end. -/
def pySlice (l : List α) (a : Nat) (b : Int) : List α :=
  let bn : Nat := if b < 0 then l.length - b.natAbs else min b.toNat l.length
  (l.take bn).drop a

def errorObj (msg : Str) : Json := Json.obj [(sl "error", Json.str msg)]

/-!
Tool handlers (tools.py). Handlers take the filesystem (and cwd, for
Path.resolve) as read-only inputs and return only a result dict: the source
handlers perform no filesystem mutation and spawn no process for
write_file (lines 174-197, which only reads the old content) and
run_command (lines 288-303, which only screens the command text); the
actual side effects live in the confirmation branches of agent_chat.
-/

/-- Python file-iteration line count (used only in the too-large branch). -/
def iterLineCount (content : Str) : Nat :=
  if content = [] then 0
  else
    let parts := splitNl content
    if parts.getLastD [] = [] then parts.length - 1 else parts.length

/-- tools.read_file (lines 55-118). -/
def tools_read_file (fs : List (Str × Str)) (cwd : Str) (path : Str)
    (line_start line_end : Option Int) (max_lines : Int) : Json :=
  let file_path := resolvePath cwd path
  match lookupFs fs file_path with
  | none => errorObj (sl "File not found: " ++ path)
  | some content =>
    if content.length > 1024 * 1024 ∧ line_start = none then
      Json.obj [(sl "error", Json.str (sl "File too large: " ++ path ++ sl " ("
          ++ natToStr (content.length / 1024) ++ sl "KB)")),
        (sl "hint", Json.str (sl "Use search_code first to find line numbers, then read_file with line_start/line_end")),
        (sl "total_lines", Json.num (iterLineCount content))]
    else
      let all_lines := splitNl content
      let total_lines := all_lines.length
      match line_start with
      | some ls =>
        let start_idx : Nat := (max 0 (ls - 1)).toNat
        let end_idx0 : Int := match line_end with
          | some le => if le ≠ 0 then le else start_idx + max_lines
          | none => start_idx + max_lines
        let end_idx : Int := min end_idx0 (total_lines : Int)
        let lines := pySlice all_lines start_idx end_idx
        let numbered := (List.range lines.length).zip lines |>.map
          (fun p => natToStr (start_idx + 1 + p.1) ++ sl ": " ++ p.2)
        Json.obj [(sl "path", Json.str file_path),
          (sl "content", Json.str (joinNl numbered)),
          (sl "line_range", Json.str (natToStr (start_idx + 1) ++ sl "-" ++ intToStr end_idx)),
          (sl "total_lines", Json.num total_lines),
          (sl "lines_read", Json.num lines.length)]
      | none =>
        let truncated := (total_lines : Int) > max_lines
        let lines := if truncated then pySlice all_lines 0 max_lines else all_lines
        Json.obj [(sl "path", Json.str file_path),
          (sl "content", Json.str (joinNl lines)),
          (sl "lines", Json.num lines.length),
          (sl "total_lines", Json.num total_lines),
          (sl "truncated", Json.bool truncated),
          (sl "hint", if truncated then
              Json.str (sl "Use line_start/line_end to read specific sections")
            else Json.null)]

/-- tools.write_file (lines 174-197): returns only the write proposal. -/
def tools_write_file (fs : List (Str × Str)) (cwd : Str) (path content : Str) : Json :=
  let file_path := resolvePath cwd path
  let exists_ := (lookupFs fs file_path).isSome
  let old_content := (lookupFs fs file_path).getD []
  Json.obj [(sl "action", Json.str (sl "write_file")),
    (sl "path", Json.str file_path),
    (sl "exists", Json.bool exists_),
    (sl "old_content", Json.str old_content),
    (sl "new_content", Json.str content),
    (sl "requires_confirmation", Json.bool true)]

def dangerous_list : List Str :=
  [sl "rm -rf", sl "del /", sl "format", sl "mkfs", sl ":()\x7b", sl "fork bomb"]

/-- tools.run_command (lines 288-303): returns only an error or the run
proposal. -/
def tools_run_command (command path : Str) (timeout : Int) : Json :=
  match dangerous_list.find? (fun d => containsSub (lowerStr command) d) with
  | some d => errorObj (sl "Dangerous command blocked: " ++ d)
  | none =>
    Json.obj [(sl "action", Json.str (sl "run_command")),
      (sl "command", Json.str command),
      (sl "path", Json.str path),
      (sl "timeout", Json.num timeout),
      (sl "requires_confirmation", Json.bool true)]

def TOOLS_names : List Str :=
  [sl "list_files", sl "read_file", sl "search_code", sl "write_file",
   sl "git_status", sl "git_diff", sl "run_command"]

/-! Keyword binding of decoded JSON args onto handler parameters. A call
with an unexpected keyword, a missing required parameter, or an argument
whose type the handler body cannot consume raises TypeError inside
execute_tool's try and is captured as an error dict; the model uses the
constant message "TypeError" for those (the Python message text differs). -/

def argsLookup (args : List (Str × Json)) (k : Str) : Option Json :=
  (args.find? (fun kv => kv.1 == k)).map (·.2)

def keysSubset (args : List (Str × Json)) (allowed : List Str) : Bool :=
  args.all (fun kv => allowed.contains kv.1)

def optIntArg (args : List (Str × Json)) (k : Str) : Option (Option Int) :=
  match argsLookup args k with
  | none => some none
  | some (Json.num n) => some (some n)
  | some Json.null => some none
  | some _ => none

/-- Python str() formatting of a decoded JSON value into an f-string
(scalars as Python renders them; containers are a model boundary, rendered
as JSON). -/
def pyStrScalar (j : Json) : Str :=
  match j with
  | .str s => s
  | .null => sl "None"
  | .bool true => sl "True"
  | .bool false => sl "False"
  | .num n => intToStr n
  | .fnum m e => intToStr m ++ sl "e" ++ intToStr e
  | .arr xs => dumps (.arr xs) 0
  | .obj fs => dumps (.obj fs) 0

/-- execute_tool (tools.py lines 463-472) for one decoded argument dict. -/
def execute_tool_model (env : Env) (st : LoopSt) (tool_name : Json)
    (args : List (Str × Json)) : Json × LoopSt :=
  match tool_name with
  | Json.str name =>
    if ¬ TOOLS_names.contains name then
      (errorObj (sl "Unknown tool: " ++ name), st)
    else if name = sl "read_file" then
      if keysSubset args [sl "path", sl "line_start", sl "line_end", sl "max_lines"] then
        match argsLookup args (sl "path"), optIntArg args (sl "line_start"),
            optIntArg args (sl "line_end") with
        | some (Json.str p), some ls, some le =>
          let ml : Int := match argsLookup args (sl "max_lines") with
            | some (Json.num n) => n
            | _ => 500
          (tools_read_file st.world.fs env.cwd p ls le ml, st)
        | _, _, _ => (errorObj (sl "TypeError"), st)
      else (errorObj (sl "TypeError"), st)
    else if name = sl "write_file" then
      if keysSubset args [sl "path", sl "content"] then
        match argsLookup args (sl "path"), argsLookup args (sl "content") with
        | some (Json.str p), some (Json.str c) =>
          (tools_write_file st.world.fs env.cwd p c, st)
        | _, _ => (errorObj (sl "TypeError"), st)
      else (errorObj (sl "TypeError"), st)
    else if name = sl "run_command" then
      if keysSubset args [sl "command", sl "path", sl "timeout"] then
        match argsLookup args (sl "command") with
        | some (Json.str c) =>
          let p : Str := match argsLookup args (sl "path") with
            | some (Json.str q) => q
            | _ => sl "."
          let tmo : Int := match argsLookup args (sl "timeout") with
            | some (Json.num n) => n
            | _ => 30
          (tools_run_command c p tmo, st)
        | _ => (errorObj (sl "TypeError"), st)
      else (errorObj (sl "TypeError"), st)
    else
      -- list_files, search_code, git_status, git_diff: read-only handlers
      -- modelled by the env oracle
      (env.extTool st.extK, { st with extK := st.extK + 1 })
  | _ => (errorObj (sl "Unknown tool: " ++ pyStrScalar tool_name), st)

/-- Python tool_name == "name" comparison (False for non-strings). -/
def toolNameIs (j : Json) (s : Str) : Bool :=
  match j with
  | Json.str n => n == s
  | _ => false

/-- The dict replacing a declined proposal (agent.py lines 339 and 381). -/
def cancelledObj : Json :=
  Json.obj [(sl "cancelled", Json.bool true), (sl "message", Json.str (sl "User cancelled"))]

def truthy (j : Option Json) : Bool :=
  match j with
  | some (Json.bool b) => b
  | _ => false

/-- The relative path-argument rewrite (agent.py lines 312-313). -/
def rewritePath (base_path : Str) (fields : List (Str × Json)) : List (Str × Json) :=
  match argsLookup fields (sl "path") with
  | some (Json.str p) =>
    if ¬ is_absolute p then dictInsert fields (sl "path") (Json.str (pathJoin base_path p))
    else fields
  | _ => fields

/-- The confirmation gates and the ask_claude special case applied to the
raw execute_tool result (agent.py lines 317-399): the real write or spawn
happens only inside an affirmative-confirmation branch here. -/
def applyGates (env : Env) (cfg : ClaudeCfg) (tool_name result0 : Json)
    (st1 : LoopSt) : Json × Json × LoopSt :=
  if toolNameIs tool_name (sl "write_file")
      && truthy (objGet result0 (sl "requires_confirmation")) then
    if env.confirm st1.confirmK then
      let wpath := match objGet result0 (sl "path") with
        | some (Json.str p) => p
        | _ => []
      let wcontent := match objGet result0 (sl "new_content") with
        | some (Json.str c) => c
        | _ => []
      (tool_name,
       Json.obj [(sl "success", Json.bool true), (sl "path", Json.str wpath),
         (sl "message", Json.str (sl "File updated"))],
       { st1 with
         world := { st1.world with fs := setFs st1.world.fs wpath wcontent },
         confirmK := st1.confirmK + 1 })
    else
      (tool_name, cancelledObj, { st1 with confirmK := st1.confirmK + 1 })
  else if toolNameIs tool_name (sl "run_command")
      && truthy (objGet result0 (sl "requires_confirmation")) then
    if env.confirm st1.confirmK then
      let rcmd := match objGet result0 (sl "command") with
        | some (Json.str c) => c
        | _ => []
      let rpath := match objGet result0 (sl "path") with
        | some (Json.str p) => p
        | _ => []
      let rtmo : Int := match objGet result0 (sl "timeout") with
        | some (Json.num n) => n
        | _ => 30
      let st2 := { st1 with
        world := { st1.world with
          spawned := st1.world.spawned ++ [Spawn.shell rcmd rpath rtmo] },
        confirmK := st1.confirmK + 1,
        shellK := st1.shellK + 1 }
      match env.shellRun st1.shellK with
      | ShellOutcome.finished rc out =>
        let out1 := if out.length > 5000 then out.take 5000 ++ sl "\n... (truncated)" else out
        (tool_name,
         Json.obj [(sl "success", Json.bool (rc == 0)),
           (sl "returncode", Json.num rc), (sl "output", Json.str out1)],
         st2)
      | ShellOutcome.timedOut =>
        (tool_name, errorObj (sl "Command timed out"), st2)
    else
      (tool_name, cancelledObj, { st1 with confirmK := st1.confirmK + 1 })
  else if toolNameIs tool_name (sl "ask_claude") then
    if cfg.hasClient then
      (tool_name,
       Json.obj [(sl "success", Json.bool true),
         (sl "response", Json.str (env.claudeChat st1.claudeK))],
       { st1 with claudeK := st1.claudeK + 1 })
    else
      (tool_name, errorObj (sl "Claude not available. Run /claude on first."), st1)
  else
    (tool_name, result0, st1)

/-- One parsed call inside the tool-execution loop of agent_chat (lines
305-404): resolve a relative path argument against base_path, run
execute_tool, then run the confirmation gates. Returns (tool name, folded
result, new state). -/
def execOneCall (env : Env) (base_path : Str) (cfg : ClaudeCfg) (st : LoopSt)
    (call : Json) : Json × Json × LoopSt :=
  match (objGet call (sl "args")).getD (Json.obj []) with
  | Json.obj fields =>
    match execute_tool_model env st ((objGet call (sl "tool")).getD Json.null)
        (rewritePath base_path fields) with
    | (result0, st1) =>
      applyGates env cfg ((objGet call (sl "tool")).getD Json.null) result0 st1
  | _ =>
    -- args is not a dict: fn(**args) raises TypeError inside execute_tool,
    -- captured as an error dict; none of the gates fire on it
    ((objGet call (sl "tool")).getD Json.null, errorObj (sl "TypeError"), st)

/-- The tool-execution loop over all parsed calls, in parse order. -/
def foldCalls (env : Env) (base_path : Str) (cfg : ClaudeCfg) :
    LoopSt → List Json → List (Json × Json) × LoopSt
  | st, [] => ([], st)
  | st, call :: rest =>
    match execOneCall env base_path cfg st call with
    | (name, result, st1) =>
      match foldCalls env base_path cfg st1 rest with
      | (trs, st2) => ((name, result) :: trs, st2)

def truncDump (s : Str) : Str :=
  if s.length > 3000 then s.take 3000 ++ sl "\n... (truncated)" else s

/-- The synthetic user message content built from the iteration's tool
results (agent.py lines 407-413). -/
def resultText (trs : List (Json × Json)) : Str :=
  sl "Tool results:\n" ++ (trs.map (fun tr =>
    sl "\n### " ++ pyStrScalar tr.1 ++ sl "\n```json\n"
      ++ truncDump (dumps tr.2 0) ++ sl "\n```\n")).flatten

/-! The streaming phase of one iteration (agent.py lines 181-248): the
cancellation flag is checked before each event; a token event appends to
full_response; an error event returns immediately; done only flushes the
display buffer (display output is the demultiplexer modelled above by
procBuf and is not fed back into control flow). -/

inductive StreamRes where
  | stopped (text : Str)
  | errored (text : Str)
  | completed (text : Str)
  deriving Repr

def stopFlagSet : Option Nat → Nat → Bool
  | some k, idx => k ≤ idx
  | none, _ => false

def consumeEvents (cancelAt : Option Nat) : List StreamEvent → Nat → Str → StreamRes
  | [], _, acc => .completed acc
  | e :: rest, idx, acc =>
    if stopFlagSet cancelAt idx then .stopped acc
    else
      match e with
      | .token c => consumeEvents cancelAt rest (idx + 1) (acc ++ c)
      | .errorEv _ => .errored acc
      | .doneEv => consumeEvents cancelAt rest (idx + 1) acc

/-- The streaming outcome of iteration i, a pure function of the env. -/
def iterOutcome (env : Env) (i : Nat) : StreamRes :=
  consumeEvents (env.cancelAt i) (env.stream i) 0 []

inductive ExitKind where
  | finalAnswer | maxIters | stopped | streamError | handoff
  deriving Repr, DecidableEq

structure AgentResult where
  text : Str
  messages : List Message
  world : World
  exit : ExitKind
  iterationsRun : Nat
  toolIters : Nat

/-- The while-loop of agent_chat, by remaining iteration budget. iter is
the number of completed loop entries so far and indexes the env oracles. -/
def agentLoop (env : Env) (base_path : Str) (cfg : ClaudeCfg) :
    Nat → Nat → LoopSt → List Message → Str → Nat → AgentResult
  | 0, iter, st, messages, lastResp, tIters =>
    -- while-condition false: max iterations reached
    ⟨lastResp, messages, st.world, .maxIters, iter, tIters⟩
  | rem + 1, iter, st, messages, lastResp, tIters =>
    match iterOutcome env iter with
    | .errored text => ⟨text, messages, st.world, .streamError, iter + 1, tIters⟩
    | .stopped text => ⟨text, messages, st.world, .stopped, iter + 1, tIters⟩
    | .completed text =>
      -- supervisor detection and hand-off (lines 253-283), skipped when
      -- claude is disabled; modelled by the env.handoff oracle
      if cfg.enabled && !cfg.approved && cfg.hasClient then
        match env.handoff iter with
        | some (rt, rm) => ⟨rt, rm, st.world, .handoff, iter + 1, tIters⟩
        | none =>
          if (parse_tool_calls text).isEmpty then
            ⟨text, messages, st.world, .finalAnswer, iter + 1, tIters⟩
          else
            match foldCalls env base_path cfg st (parse_tool_calls text) with
            | (trs, st1) =>
              agentLoop env base_path cfg rem (iter + 1) st1
                (messages ++ [⟨sl "assistant", text⟩] ++ [⟨sl "user", resultText trs⟩])
                text (tIters + 1)
      else
        if (parse_tool_calls text).isEmpty then
          ⟨text, messages, st.world, .finalAnswer, iter + 1, tIters⟩
        else
          match foldCalls env base_path cfg st (parse_tool_calls text) with
          | (trs, st1) =>
            agentLoop env base_path cfg rem (iter + 1) st1
              (messages ++ [⟨sl "assistant", text⟩] ++ [⟨sl "user", resultText trs⟩])
              text (tIters + 1)

/-- agent_chat: the pre-loop supervisor keyword check (lines 122-144,
modelled by env.preHandoff, skipped when claude is disabled), then the
iteration loop with budget MAX_ITERATIONS. -/
def agent_chat (env : Env) (messages : List Message) (base_path : Str)
    (cfg : ClaudeCfg) (world : World) : AgentResult :=
  if cfg.enabled && !cfg.approved && cfg.hasClient then
    match env.preHandoff with
    | some (rt, rm) => ⟨rt, rm, world, .handoff, 0, 0⟩
    | none => agentLoop env base_path cfg MAX_ITERATIONS 0 ⟨world, 0, 0, 0, 0⟩ messages [] 0
  else agentLoop env base_path cfg MAX_ITERATIONS 0 ⟨world, 0, 0, 0, 0⟩ messages [] 0

/-! Branch equations of the loop body. -/

theorem agentLoop_stopped {env : Env} {iter : Nat} {t : Str}
    (h : iterOutcome env iter = .stopped t) (base : Str) (cfg : ClaudeCfg)
    (rem : Nat) (st : LoopSt) (messages : List Message) (lastResp : Str) (tIters : Nat) :
    agentLoop env base cfg (rem + 1) iter st messages lastResp tIters
      = ⟨t, messages, st.world, .stopped, iter + 1, tIters⟩ := by
  unfold agentLoop
  rw [h]

theorem agentLoop_errored {env : Env} {iter : Nat} {t : Str}
    (h : iterOutcome env iter = .errored t) (base : Str) (cfg : ClaudeCfg)
    (rem : Nat) (st : LoopSt) (messages : List Message) (lastResp : Str) (tIters : Nat) :
    agentLoop env base cfg (rem + 1) iter st messages lastResp tIters
      = ⟨t, messages, st.world, .streamError, iter + 1, tIters⟩ := by
  unfold agentLoop
  rw [h]

theorem agentLoop_final {env : Env} {iter : Nat} {t : Str} {cfg : ClaudeCfg}
    (h : iterOutcome env iter = .completed t) (hcfg : cfg.enabled = false)
    (hnt : (parse_tool_calls t).isEmpty = true) (base : Str)
    (rem : Nat) (st : LoopSt) (messages : List Message) (lastResp : Str) (tIters : Nat) :
    agentLoop env base cfg (rem + 1) iter st messages lastResp tIters
      = ⟨t, messages, st.world, .finalAnswer, iter + 1, tIters⟩ := by
  unfold agentLoop
  rw [h]
  simp [hcfg, hnt]

theorem agentLoop_tools {env : Env} {iter : Nat} {t : Str} {cfg : ClaudeCfg}
    (h : iterOutcome env iter = .completed t) (hcfg : cfg.enabled = false)
    (hnt : (parse_tool_calls t).isEmpty = false) (base : Str)
    (rem : Nat) (st : LoopSt) (messages : List Message) (lastResp : Str) (tIters : Nat) :
    agentLoop env base cfg (rem + 1) iter st messages lastResp tIters
      = agentLoop env base cfg rem (iter + 1)
          (foldCalls env base cfg st (parse_tool_calls t)).2
          (messages ++ [⟨sl "assistant", t⟩]
            ++ [⟨sl "user", resultText (foldCalls env base cfg st (parse_tool_calls t)).1⟩])
          t (tIters + 1) := by
  rcases hfc : foldCalls env base cfg st (parse_tool_calls t) with ⟨trs, st1⟩
  unfold agentLoop
  rw [h]
  simp only [hcfg, Bool.false_and, Bool.false_eq_true, if_false, hnt, hfc]
  rw [agentLoop.eq_def]
  simp [hcfg]

theorem agent_chat_eq {cfg : ClaudeCfg} (hcfg : cfg.enabled = false)
    (env : Env) (messages : List Message) (base : Str) (world : World) :
    agent_chat env messages base cfg world
      = agentLoop env base cfg MAX_ITERATIONS 0 ⟨world, 0, 0, 0, 0⟩ messages [] 0 := by
  unfold agent_chat
  simp [hcfg]

/-- C7: when the cancellation flag is observed mid-stream in the first
iteration, agent_chat stops consuming, returns the text accumulated so far
and the unchanged input message list; the partial response is not parsed
for tool calls, no message is appended, no tool executes and the world is
untouched. -/
theorem C7_thm (env : Env) (messages : List Message) (base : Str) (cfg : ClaudeCfg)
    (world : World) (t : Str) (hcfg : cfg.enabled = false)
    (hstop : iterOutcome env 0 = .stopped t) :
    agent_chat env messages base cfg world
      = ⟨t, messages, world, .stopped, 1, 0⟩ := by
  rw [agent_chat_eq hcfg, show MAX_ITERATIONS = 9 + 1 from rfl,
    agentLoop_stopped hstop]

def c7env : Env :=
  { stream := fun _ => [StreamEvent.token (sl "par"), StreamEvent.token (sl "tial"),
      StreamEvent.doneEv],
    cancelAt := fun _ => some 1, confirm := fun _ => false,
    shellRun := fun _ => ShellOutcome.timedOut, extTool := fun _ => Json.null,
    claudeChat := fun _ => [], preHandoff := none, handoff := fun _ => none,
    cwd := sl "/" }

/-- Witness for C7_thm: the flag fires after the first token event. -/
theorem C7_witness :
    agent_chat c7env [⟨sl "user", sl "hi"⟩] (sl "/w") ⟨false, false, false⟩ ⟨[], []⟩
      = ⟨sl "par", [⟨sl "user", sl "hi"⟩], ⟨[], []⟩, .stopped, 1, 0⟩ :=
  C7_thm c7env [⟨sl "user", sl "hi"⟩] (sl "/w") ⟨false, false, false⟩ ⟨[], []⟩
    (sl "par") rfl rfl

/-- C1: the confirmation gate. The write_file and run_command handlers are
pure functions of the filesystem snapshot (their embedding takes the
filesystem read-only and returns only a dict; the source handlers likewise
neither write nor spawn): the write_file handler always returns a proposal
dict with requires_confirmation true, the run_command handler returns
either a dangerous-command error or such a proposal, and when the
interactive confirmation is declined the loop folds back exactly the dict
with cancelled true and message "User cancelled", with the world (files
and spawn trace) and everything else in the loop state unchanged. -/
theorem C1_thm :
    (∀ (fs : List (Str × Str)) (cwd path content : Str),
      objGet (tools_write_file fs cwd path content) (sl "requires_confirmation")
          = some (Json.bool true) ∧
      objGet (tools_write_file fs cwd path content) (sl "action")
          = some (Json.str (sl "write_file"))) ∧
    (∀ (command path : Str) (timeout : Int),
      (∃ d, tools_run_command command path timeout
          = errorObj (sl "Dangerous command blocked: " ++ d)) ∨
      objGet (tools_run_command command path timeout) (sl "requires_confirmation")
          = some (Json.bool true)) ∧
    (∀ (env : Env) (base : Str) (cfg : ClaudeCfg) (st : LoopSt) (p c : Str),
      env.confirm st.confirmK = false →
      execOneCall env base cfg st (Json.obj [(sl "tool", Json.str (sl "write_file")),
          (sl "args", Json.obj [(sl "path", Json.str p), (sl "content", Json.str c)])])
        = (Json.str (sl "write_file"), cancelledObj,
           { st with confirmK := st.confirmK + 1 })) ∧
    (∀ (env : Env) (base : Str) (cfg : ClaudeCfg) (st : LoopSt) (cmd : Str),
      dangerous_list.find? (fun d => containsSub (lowerStr cmd) d) = none →
      env.confirm st.confirmK = false →
      execOneCall env base cfg st (Json.obj [(sl "tool", Json.str (sl "run_command")),
          (sl "args", Json.obj [(sl "command", Json.str cmd)])])
        = (Json.str (sl "run_command"), cancelledObj,
           { st with confirmK := st.confirmK + 1 })) := by
  refine ⟨?_, ?_, ?_, ?_⟩
  · intro fs cwd path content
    exact ⟨rfl, rfl⟩
  · intro command path timeout
    rcases hd : dangerous_list.find? (fun d => containsSub (lowerStr command) d) with _ | d
    · right
      unfold tools_run_command
      rw [hd]
      rfl
    · left
      refine ⟨d, ?_⟩
      unfold tools_run_command
      rw [hd]
  · intro env base cfg st p c hconf
    have h2 : ∃ q, rewritePath base [(sl "path", Json.str p), (sl "content", Json.str c)]
        = [(sl "path", Json.str q), (sl "content", Json.str c)] := by
      unfold rewritePath
      rw [show argsLookup [(sl "path", Json.str p), (sl "content", Json.str c)] (sl "path")
          = some (Json.str p) from rfl]
      show ∃ q, (if ¬ is_absolute p = true
          then dictInsert [(sl "path", Json.str p), (sl "content", Json.str c)] (sl "path")
            (Json.str (pathJoin base p))
          else [(sl "path", Json.str p), (sl "content", Json.str c)])
        = [(sl "path", Json.str q), (sl "content", Json.str c)]
      by_cases habs : is_absolute p = true
      · rw [habs]
        exact ⟨p, by simp⟩
      · rw [eq_false_of_ne_true habs]
        refine ⟨pathJoin base p, ?_⟩
        simp only [dictInsert]
        rw [show ([(sl "path", Json.str p), (sl "content", Json.str c)].any
            (fun kv => kv.1 == sl "path")) = true from rfl]
        rfl
    obtain ⟨q, hq⟩ := h2
    have h0 : execOneCall env base cfg st (Json.obj [(sl "tool", Json.str (sl "write_file")),
          (sl "args", Json.obj [(sl "path", Json.str p), (sl "content", Json.str c)])])
        = applyGates env cfg (Json.str (sl "write_file"))
            (tools_write_file st.world.fs env.cwd q c) st := by
      show (match execute_tool_model env st (Json.str (sl "write_file"))
          (rewritePath base [(sl "path", Json.str p), (sl "content", Json.str c)]) with
        | (result0, st1) =>
          applyGates env cfg (Json.str (sl "write_file")) result0 st1) = _
      rw [hq]
      rw [show execute_tool_model env st (Json.str (sl "write_file"))
          [(sl "path", Json.str q), (sl "content", Json.str c)]
        = (tools_write_file st.world.fs env.cwd q c, st) from rfl]
    rw [h0]
    unfold applyGates
    rw [show (toolNameIs (Json.str (sl "write_file")) (sl "write_file")
        && truthy (objGet (tools_write_file st.world.fs env.cwd q c)
          (sl "requires_confirmation"))) = true from rfl]
    rw [hconf]
    simp
  · intro env base cfg st cmd hnd hconf
    have hrc : tools_run_command cmd (sl ".") 30
        = Json.obj [(sl "action", Json.str (sl "run_command")),
            (sl "command", Json.str cmd), (sl "path", Json.str (sl ".")),
            (sl "timeout", Json.num 30), (sl "requires_confirmation", Json.bool true)] := by
      unfold tools_run_command
      rw [hnd]
    have h0 : execOneCall env base cfg st (Json.obj [(sl "tool", Json.str (sl "run_command")),
          (sl "args", Json.obj [(sl "command", Json.str cmd)])])
        = applyGates env cfg (Json.str (sl "run_command"))
            (tools_run_command cmd (sl ".") 30) st := by
      show (match execute_tool_model env st (Json.str (sl "run_command"))
          (rewritePath base [(sl "command", Json.str cmd)]) with
        | (result0, st1) =>
          applyGates env cfg (Json.str (sl "run_command")) result0 st1) = _
      rw [show rewritePath base [(sl "command", Json.str cmd)]
          = [(sl "command", Json.str cmd)] from rfl]
      rw [show execute_tool_model env st (Json.str (sl "run_command"))
          [(sl "command", Json.str cmd)]
        = (tools_run_command cmd (sl ".") 30, st) from rfl]
    rw [h0, hrc]
    unfold applyGates
    rw [show (toolNameIs (Json.str (sl "run_command")) (sl "write_file")
        && truthy (objGet (Json.obj [(sl "action", Json.str (sl "run_command")),
            (sl "command", Json.str cmd), (sl "path", Json.str (sl ".")),
            (sl "timeout", Json.num 30), (sl "requires_confirmation", Json.bool true)])
          (sl "requires_confirmation"))) = false from rfl]
    rw [show (toolNameIs (Json.str (sl "run_command")) (sl "run_command")
        && truthy (objGet (Json.obj [(sl "action", Json.str (sl "run_command")),
            (sl "command", Json.str cmd), (sl "path", Json.str (sl ".")),
            (sl "timeout", Json.num 30), (sl "requires_confirmation", Json.bool true)])
          (sl "requires_confirmation"))) = true from rfl]
    rw [hconf]
    simp

def c1env : Env :=
  { stream := fun _ => [], cancelAt := fun _ => none, confirm := fun _ => false,
    shellRun := fun _ => ShellOutcome.timedOut, extTool := fun _ => Json.null,
    claudeChat := fun _ => [], preHandoff := none, handoff := fun _ => none,
    cwd := sl "/" }

/-- Witness for C1_thm: a declined write and a declined command on a
concrete empty world. -/
theorem C1_witness :
    (objGet (tools_write_file [] (sl "/") (sl "a.txt") (sl "hi"))
        (sl "requires_confirmation") = some (Json.bool true)) ∧
    ((∃ d, tools_run_command (sl "ls") (sl ".") 30
        = errorObj (sl "Dangerous command blocked: " ++ d)) ∨
      objGet (tools_run_command (sl "ls") (sl ".") 30) (sl "requires_confirmation")
        = some (Json.bool true)) ∧
    execOneCall c1env (sl "/w") ⟨false, false, false⟩ ⟨⟨[], []⟩, 0, 0, 0, 0⟩
        (Json.obj [(sl "tool", Json.str (sl "write_file")),
          (sl "args", Json.obj [(sl "path", Json.str (sl "a.txt")),
            (sl "content", Json.str (sl "hi"))])])
      = (Json.str (sl "write_file"), cancelledObj, ⟨⟨[], []⟩, 1, 0, 0, 0⟩) ∧
    execOneCall c1env (sl "/w") ⟨false, false, false⟩ ⟨⟨[], []⟩, 0, 0, 0, 0⟩
        (Json.obj [(sl "tool", Json.str (sl "run_command")),
          (sl "args", Json.obj [(sl "command", Json.str (sl "ls"))])])
      = (Json.str (sl "run_command"), cancelledObj, ⟨⟨[], []⟩, 1, 0, 0, 0⟩) := by
  obtain ⟨h1, h2, h3, h4⟩ := C1_thm
  exact ⟨(h1 [] (sl "/") (sl "a.txt") (sl "hi")).1,
    h2 (sl "ls") (sl ".") 30,
    h3 c1env (sl "/w") ⟨false, false, false⟩ ⟨⟨[], []⟩, 0, 0, 0, 0⟩
      (sl "a.txt") (sl "hi") rfl,
    h4 c1env (sl "/w") ⟨false, false, false⟩ ⟨⟨[], []⟩, 0, 0, 0, 0⟩
      (sl "ls") rfl rfl⟩

/-! Termination bound of the loop. -/

theorem agentLoop_zero (env : Env) (base : Str) (cfg : ClaudeCfg) (iter : Nat)
    (st : LoopSt) (ms : List Message) (lr : Str) (ti : Nat) :
    agentLoop env base cfg 0 iter st ms lr ti
      = ⟨lr, ms, st.world, .maxIters, iter, ti⟩ := by
  rw [agentLoop.eq_def]

/-- The completed-stream branch of the loop body, for any claude config. -/
theorem agentLoop_completed {env : Env} {iter : Nat} {t : Str}
    (h : iterOutcome env iter = .completed t) (base : Str) (cfg : ClaudeCfg)
    (rem : Nat) (st : LoopSt) (ms : List Message) (lr : Str) (ti : Nat) :
    agentLoop env base cfg (rem + 1) iter st ms lr ti
      = (if cfg.enabled && !cfg.approved && cfg.hasClient then
          match env.handoff iter with
          | some (rt, rm) => ⟨rt, rm, st.world, .handoff, iter + 1, ti⟩
          | none =>
            if (parse_tool_calls t).isEmpty then
              ⟨t, ms, st.world, .finalAnswer, iter + 1, ti⟩
            else
              match foldCalls env base cfg st (parse_tool_calls t) with
              | (trs, st1) =>
                agentLoop env base cfg rem (iter + 1) st1
                  (ms ++ [⟨sl "assistant", t⟩] ++ [⟨sl "user", resultText trs⟩])
                  t (ti + 1)
        else
          if (parse_tool_calls t).isEmpty then
            ⟨t, ms, st.world, .finalAnswer, iter + 1, ti⟩
          else
            match foldCalls env base cfg st (parse_tool_calls t) with
            | (trs, st1) =>
              agentLoop env base cfg rem (iter + 1) st1
                (ms ++ [⟨sl "assistant", t⟩] ++ [⟨sl "user", resultText trs⟩])
                t (ti + 1)) := by
  conv_lhs => rw [agentLoop.eq_def]
  simp only [h]

theorem agentLoop_iters_le (env : Env) (base : Str) (cfg : ClaudeCfg) :
    ∀ (fuel iter : Nat) (st : LoopSt) (ms : List Message) (lr : Str) (ti : Nat),
    (agentLoop env base cfg fuel iter st ms lr ti).iterationsRun ≤ iter + fuel := by
  intro fuel
  induction fuel with
  | zero =>
    intro iter st ms lr ti
    rw [agentLoop_zero]
    show iter ≤ iter + 0
    omega
  | succ rem ih =>
    intro iter st ms lr ti
    cases h : iterOutcome env iter with
    | errored t =>
      rw [agentLoop_errored h]
      show iter + 1 ≤ iter + (rem + 1)
      omega
    | stopped t =>
      rw [agentLoop_stopped h]
      show iter + 1 ≤ iter + (rem + 1)
      omega
    | completed t =>
      rw [agentLoop_completed h]
      by_cases hb : (cfg.enabled && !cfg.approved && cfg.hasClient) = true
      · rw [if_pos hb]
        cases hh : env.handoff iter with
        | some p =>
          rcases p with ⟨rt, rm⟩
          show iter + 1 ≤ iter + (rem + 1)
          omega
        | none =>
          by_cases hp : (parse_tool_calls t).isEmpty = true
          · rw [if_pos hp]
            show iter + 1 ≤ iter + (rem + 1)
            omega
          · rw [if_neg hp]
            rcases hfc : foldCalls env base cfg st (parse_tool_calls t) with ⟨trs, st1⟩
            show (agentLoop env base cfg rem (iter + 1) st1
                (ms ++ [⟨sl "assistant", t⟩] ++ [⟨sl "user", resultText trs⟩])
                t (ti + 1)).iterationsRun ≤ iter + (rem + 1)
            exact le_trans (ih (iter + 1) st1 _ t (ti + 1)) (by omega)
      · rw [if_neg hb]
        by_cases hp : (parse_tool_calls t).isEmpty = true
        · rw [if_pos hp]
          show iter + 1 ≤ iter + (rem + 1)
          omega
        · rw [if_neg hp]
          rcases hfc : foldCalls env base cfg st (parse_tool_calls t) with ⟨trs, st1⟩
          show (agentLoop env base cfg rem (iter + 1) st1
              (ms ++ [⟨sl "assistant", t⟩] ++ [⟨sl "user", resultText trs⟩])
              t (ti + 1)).iterationsRun ≤ iter + (rem + 1)
          exact le_trans (ih (iter + 1) st1 _ t (ti + 1)) (by omega)

theorem agentLoop_allTools {env : Env} {cfg : ClaudeCfg} (hcfg : cfg.enabled = false)
    (base : Str) (T : Nat → Str) :
    ∀ (fuel iter : Nat) (st : LoopSt) (ms : List Message) (lr : Str) (ti : Nat),
    (∀ i, iter ≤ i → i < iter + fuel →
        iterOutcome env i = .completed (T i) ∧ (parse_tool_calls (T i)).isEmpty = false) →
    (agentLoop env base cfg fuel iter st ms lr ti).exit = ExitKind.maxIters ∧
    (agentLoop env base cfg fuel iter st ms lr ti).iterationsRun = iter + fuel ∧
    (agentLoop env base cfg fuel iter st ms lr ti).text
      = (if fuel = 0 then lr else T (iter + fuel - 1)) := by
  intro fuel
  induction fuel with
  | zero =>
    intro iter st ms lr ti _
    rw [agentLoop_zero]
    exact ⟨rfl, rfl, rfl⟩
  | succ rem ih =>
    intro iter st ms lr ti hall
    obtain ⟨h1, h2⟩ := hall iter (le_refl iter) (by omega)
    rw [agentLoop_tools h1 hcfg h2]
    obtain ⟨e1, e2, e3⟩ := ih (iter + 1)
      (foldCalls env base cfg st (parse_tool_calls (T iter))).2
      (ms ++ [⟨sl "assistant", T iter⟩]
        ++ [⟨sl "user", resultText (foldCalls env base cfg st (parse_tool_calls (T iter))).1⟩])
      (T iter) (ti + 1)
      (fun i hi1 hi2 => hall i (by omega) (by omega))
    refine ⟨e1, by rw [e2]; omega, ?_⟩
    rw [e3]
    cases rem with
    | zero => simp
    | succ r =>
      rw [if_neg (by omega), if_neg (by omega)]
      congr 1
      omega

/-- C2: the loop budget. MAX_ITERATIONS is 10; agent_chat never runs more
than MAX_ITERATIONS loop iterations; an iteration whose completed (neither
cancelled nor errored) response parses to no tool calls ends the loop at
once with that response text as the final answer; and when all
MAX_ITERATIONS iterations complete with tool calls, the loop exits with the
max-iterations report, having run exactly MAX_ITERATIONS iterations, and
its text is the last (10th) response. -/
theorem C2_thm :
    MAX_ITERATIONS = 10 ∧
    (∀ (env : Env) (ms : List Message) (base : Str) (cfg : ClaudeCfg) (world : World),
      (agent_chat env ms base cfg world).iterationsRun ≤ MAX_ITERATIONS) ∧
    (∀ (env : Env) (base : Str) (cfg : ClaudeCfg) (rem iter : Nat) (st : LoopSt)
        (ms : List Message) (lr : Str) (ti : Nat) (t : Str),
      cfg.enabled = false →
      iterOutcome env iter = .completed t →
      (parse_tool_calls t).isEmpty = true →
      agentLoop env base cfg (rem + 1) iter st ms lr ti
        = ⟨t, ms, st.world, .finalAnswer, iter + 1, ti⟩) ∧
    (∀ (env : Env) (ms : List Message) (base : Str) (cfg : ClaudeCfg) (world : World)
        (T : Nat → Str),
      cfg.enabled = false →
      (∀ i, i < MAX_ITERATIONS →
          iterOutcome env i = .completed (T i) ∧ (parse_tool_calls (T i)).isEmpty = false) →
      (agent_chat env ms base cfg world).exit = ExitKind.maxIters ∧
      (agent_chat env ms base cfg world).iterationsRun = MAX_ITERATIONS ∧
      (agent_chat env ms base cfg world).text = T 9) := by
  refine ⟨rfl, ?_, ?_, ?_⟩
  · intro env ms base cfg world
    unfold agent_chat
    split
    · split
      · exact Nat.zero_le _
      · exact le_of_le_of_eq (agentLoop_iters_le env base cfg MAX_ITERATIONS 0 _ ms [] 0)
          (Nat.zero_add _)
    · exact le_of_le_of_eq (agentLoop_iters_le env base cfg MAX_ITERATIONS 0 _ ms [] 0)
        (Nat.zero_add _)
  · intro env base cfg rem iter st ms lr ti t hcfg h1 h2
    exact agentLoop_final h1 hcfg h2 base rem st ms lr ti
  · intro env ms base cfg world T hcfg hall
    rw [agent_chat_eq hcfg]
    obtain ⟨e1, e2, e3⟩ := agentLoop_allTools hcfg base T MAX_ITERATIONS 0
      ⟨world, 0, 0, 0, 0⟩ ms [] 0
      (fun i hi1 hi2 => hall i (by simpa using hi2))
    refine ⟨e1, e2, ?_⟩
    rw [e3]
    rfl

def c2text : Str := sl "\x7b\"tool\": \"git_status\", \"args\": \x7b\x7d\x7d"

def c2env : Env :=
  { stream := fun _ => [StreamEvent.token c2text, StreamEvent.doneEv],
    cancelAt := fun _ => none, confirm := fun _ => false,
    shellRun := fun _ => ShellOutcome.timedOut, extTool := fun _ => Json.null,
    claudeChat := fun _ => [], preHandoff := none, handoff := fun _ => none,
    cwd := sl "/" }

def c2envF : Env :=
  { c2env with stream := fun _ => [StreamEvent.token (sl "done"), StreamEvent.doneEv] }

theorem c2env_allcalls : ∀ i, i < MAX_ITERATIONS →
    iterOutcome c2env i = .completed c2text ∧ (parse_tool_calls c2text).isEmpty = false :=
  fun _ _ => ⟨rfl, rfl⟩

/-- Witness for C2_thm: a model that always answers with a tool call hits
the max-iterations exit after exactly 10 iterations; a model that answers
plain text exits at once with the final answer. -/
theorem C2_witness :
    (agent_chat c2env [] (sl "/w") ⟨false, false, false⟩ ⟨[], []⟩).iterationsRun
        ≤ MAX_ITERATIONS ∧
    agentLoop c2envF (sl "/w") ⟨false, false, false⟩ 10 0 ⟨⟨[], []⟩, 0, 0, 0, 0⟩ [] [] 0
      = ⟨sl "done", [], ⟨[], []⟩, .finalAnswer, 1, 0⟩ ∧
    (agent_chat c2env [] (sl "/w") ⟨false, false, false⟩ ⟨[], []⟩).exit
        = ExitKind.maxIters ∧
    (agent_chat c2env [] (sl "/w") ⟨false, false, false⟩ ⟨[], []⟩).iterationsRun
        = MAX_ITERATIONS ∧
    (agent_chat c2env [] (sl "/w") ⟨false, false, false⟩ ⟨[], []⟩).text = c2text := by
  obtain ⟨hM, hbound, hfinal, hmax⟩ := C2_thm
  obtain ⟨m1, m2, m3⟩ := hmax c2env [] (sl "/w") ⟨false, false, false⟩ ⟨[], []⟩
    (fun _ => c2text) rfl c2env_allcalls
  exact ⟨hbound c2env [] (sl "/w") ⟨false, false, false⟩ ⟨[], []⟩,
    hfinal c2envF (sl "/w") ⟨false, false, false⟩ 9 0 ⟨⟨[], []⟩, 0, 0, 0, 0⟩ [] [] 0
      (sl "done") rfl rfl rfl,
    m1, m2, m3⟩

/-! Append-only history. -/

/-- The two messages appended by one tool-producing iteration: the raw
assistant response and the synthetic user message with the serialized tool
results. -/
def pairMsgs (pairs : List (Str × List (Json × Json))) : List Message :=
  (pairs.map (fun pr =>
    [⟨sl "assistant", pr.1⟩, ⟨sl "user", resultText pr.2⟩])).flatten

theorem agentLoop_append {env : Env} {cfg : ClaudeCfg} (hcfg : cfg.enabled = false)
    (base : Str) :
    ∀ (fuel iter : Nat) (st : LoopSt) (ms : List Message) (lr : Str) (ti : Nat),
    ∃ pairs : List (Str × List (Json × Json)),
      (agentLoop env base cfg fuel iter st ms lr ti).messages = ms ++ pairMsgs pairs ∧
      (agentLoop env base cfg fuel iter st ms lr ti).toolIters = ti + pairs.length := by
  intro fuel
  induction fuel with
  | zero =>
    intro iter st ms lr ti
    refine ⟨[], ?_, ?_⟩ <;> rw [agentLoop_zero]
    · simp [pairMsgs]
    · rfl
  | succ rem ih =>
    intro iter st ms lr ti
    cases h : iterOutcome env iter with
    | errored t =>
      refine ⟨[], ?_, ?_⟩ <;> rw [agentLoop_errored h]
      · simp [pairMsgs]
      · rfl
    | stopped t =>
      refine ⟨[], ?_, ?_⟩ <;> rw [agentLoop_stopped h]
      · simp [pairMsgs]
      · rfl
    | completed t =>
      by_cases hp : (parse_tool_calls t).isEmpty = true
      · refine ⟨[], ?_, ?_⟩ <;> rw [agentLoop_final h hcfg hp]
        · simp [pairMsgs]
        · rfl
      · rw [agentLoop_tools h hcfg (eq_false_of_ne_true hp)]
        obtain ⟨pairs, h1, h2⟩ := ih (iter + 1)
          (foldCalls env base cfg st (parse_tool_calls t)).2
          (ms ++ [⟨sl "assistant", t⟩]
            ++ [⟨sl "user", resultText (foldCalls env base cfg st (parse_tool_calls t)).1⟩])
          t (ti + 1)
        refine ⟨(t, (foldCalls env base cfg st (parse_tool_calls t)).1) :: pairs, ?_, ?_⟩
        · rw [h1]
          simp [pairMsgs, List.append_assoc]
        · rw [h2, List.length_cons]
          omega

/-- C4: append-only history. The message list agent_chat returns is the
input list with zero or more messages appended, never mutated or removed;
the appended part consists of one assistant message (the raw response)
followed by one synthetic user message (the serialized tool results,
starting with "Tool results:") per tool-producing iteration, and nothing
else; the number of appended pairs is exactly the number of tool-producing
iterations. -/
theorem C4_thm (env : Env) (ms : List Message) (base : Str) (cfg : ClaudeCfg)
    (world : World) (hcfg : cfg.enabled = false) :
    ∃ pairs : List (Str × List (Json × Json)),
      (agent_chat env ms base cfg world).messages = ms ++ pairMsgs pairs ∧
      (agent_chat env ms base cfg world).toolIters = pairs.length ∧
      ∀ pr ∈ pairs, List.IsPrefix (sl "Tool results:\n") (resultText pr.2) := by
  rw [agent_chat_eq hcfg]
  obtain ⟨pairs, h1, h2⟩ :=
    agentLoop_append hcfg base MAX_ITERATIONS 0 ⟨world, 0, 0, 0, 0⟩ ms [] 0
  refine ⟨pairs, h1, by rw [h2]; omega, ?_⟩
  intro pr _
  exact ⟨_, rfl⟩

/-- Witness for C4_thm on a run with tool-producing iterations. -/
theorem C4_witness :
    ∃ pairs : List (Str × List (Json × Json)),
      (agent_chat c2env [⟨sl "user", sl "hi"⟩] (sl "/w") ⟨false, false, false⟩
          ⟨[], []⟩).messages
        = [⟨sl "user", sl "hi"⟩] ++ pairMsgs pairs ∧
      (agent_chat c2env [⟨sl "user", sl "hi"⟩] (sl "/w") ⟨false, false, false⟩
          ⟨[], []⟩).toolIters = pairs.length ∧
      ∀ pr ∈ pairs, List.IsPrefix (sl "Tool results:\n") (resultText pr.2) :=
  C4_thm c2env [⟨sl "user", sl "hi"⟩] (sl "/w") ⟨false, false, false⟩ ⟨[], []⟩ rfl

/-! The read_file missing-file scenario. -/

theorem is_absolute_pathJoin (base p : Str) (hbase : is_absolute base = true) :
    is_absolute (pathJoin base p) = true := by
  unfold pathJoin
  split
  · next hdot =>
    rw [hdot] at hbase
    exact absurd hbase (by decide)
  · cases base with
    | nil => exact absurd hbase (by decide)
    | cons c rest =>
      unfold is_absolute at hbase
      split at hbase
      · next x heq =>
        injection heq with h1 h2
        subst h1
        rw [List.cons_append]
        rfl
      · exact absurd hbase (by decide)

/-- Executing a parsed read_file call whose relative path argument points
to a missing file: the loop first rewrites the path to base_path/p, the
handler then interpolates that rewritten path into its error message, and
the state is unchanged. -/
theorem execOneCall_read_missing (env : Env) (base : Str) (cfg : ClaudeCfg)
    (st : LoopSt) (p : Str) (hrel : is_absolute p = false)
    (hbase : is_absolute base = true)
    (hmiss : lookupFs st.world.fs (pathJoin base p) = none) :
    execOneCall env base cfg st
      (Json.obj [(sl "tool", Json.str (sl "read_file")),
        (sl "args", Json.obj [(sl "path", Json.str p)])])
      = (Json.str (sl "read_file"),
         errorObj (sl "File not found: " ++ pathJoin base p), st) := by
  have hq : rewritePath base [(sl "path", Json.str p)]
      = [(sl "path", Json.str (pathJoin base p))] := by
    unfold rewritePath
    rw [show argsLookup [(sl "path", Json.str p)] (sl "path") = some (Json.str p) from rfl]
    show (if ¬ is_absolute p = true
        then dictInsert [(sl "path", Json.str p)] (sl "path") (Json.str (pathJoin base p))
        else [(sl "path", Json.str p)]) = _
    rw [hrel]
    simp only [Bool.false_eq_true, not_false_iff, if_true]
    simp only [dictInsert]
    rw [show ([(sl "path", Json.str p)].any (fun kv => kv.1 == sl "path")) = true from rfl]
    rfl
  have hres : resolvePath env.cwd (pathJoin base p) = pathJoin base p := by
    unfold resolvePath
    rw [if_pos (is_absolute_pathJoin base p hbase)]
  have hread : tools_read_file st.world.fs env.cwd (pathJoin base p) none none 500
      = errorObj (sl "File not found: " ++ pathJoin base p) := by
    unfold tools_read_file
    rw [hres]
    simp only [hmiss]
  have h0 : execOneCall env base cfg st
      (Json.obj [(sl "tool", Json.str (sl "read_file")),
        (sl "args", Json.obj [(sl "path", Json.str p)])])
      = applyGates env cfg (Json.str (sl "read_file"))
          (tools_read_file st.world.fs env.cwd (pathJoin base p) none none 500) st := by
    show (match execute_tool_model env st (Json.str (sl "read_file"))
        (rewritePath base [(sl "path", Json.str p)]) with
      | (result0, st1) =>
        applyGates env cfg (Json.str (sl "read_file")) result0 st1) = _
    rw [hq]
    rw [show execute_tool_model env st (Json.str (sl "read_file"))
        [(sl "path", Json.str (pathJoin base p))]
      = (tools_read_file st.world.fs env.cwd (pathJoin base p) none none 500, st) from rfl]
  rw [h0, hread]
  unfold applyGates
  rw [show (toolNameIs (Json.str (sl "read_file")) (sl "write_file")
      && truthy (objGet (errorObj (sl "File not found: " ++ pathJoin base p))
        (sl "requires_confirmation"))) = false from rfl]
  rw [show (toolNameIs (Json.str (sl "read_file")) (sl "run_command")
      && truthy (objGet (errorObj (sl "File not found: " ++ pathJoin base p))
        (sl "requires_confirmation"))) = false from rfl]
  rw [show toolNameIs (Json.str (sl "read_file")) (sl "ask_claude") = false from rfl]
  simp

def c9text : Str := sl "\x7b\"tool\": \"read_file\", \"args\": \x7b\"path\": \"x.py\"\x7d\x7d"

def c9env : Env :=
  { stream := fun i => if i = 0 then [StreamEvent.token c9text, StreamEvent.doneEv]
      else [StreamEvent.token (sl "done!"), StreamEvent.doneEv],
    cancelAt := fun _ => none, confirm := fun _ => false,
    shellRun := fun _ => ShellOutcome.timedOut, extTool := fun _ => Json.null,
    claudeChat := fun _ => [], preHandoff := none, handoff := fun _ => none,
    cwd := sl "/" }

/-- C9 counterexample: with base_path /proj (cli.py resolves the project
root to an absolute path before agent_chat runs) and a missing relative
x.py, the loop rewrites the path argument and the tool result is the error
dict with the rewritten absolute path /proj/x.py - not the claimed
"File not found: x.py"; the run otherwise proceeds as described: the error
is folded into a user message and the loop reaches iteration 2. -/
theorem C9_counterexample :
    execOneCall c9env (sl "/proj") ⟨false, false, false⟩ ⟨⟨[], []⟩, 0, 0, 0, 0⟩
        (Json.obj [(sl "tool", Json.str (sl "read_file")),
          (sl "args", Json.obj [(sl "path", Json.str (sl "x.py"))])])
      = (Json.str (sl "read_file"), errorObj (sl "File not found: /proj/x.py"),
         ⟨⟨[], []⟩, 0, 0, 0, 0⟩) ∧
    errorObj (sl "File not found: /proj/x.py") ≠ errorObj (sl "File not found: x.py") ∧
    agent_chat c9env [⟨sl "user", sl "read x.py"⟩] (sl "/proj") ⟨false, false, false⟩
        ⟨[], []⟩
      = ⟨sl "done!",
         [⟨sl "user", sl "read x.py"⟩, ⟨sl "assistant", c9text⟩,
          ⟨sl "user", resultText [(Json.str (sl "read_file"),
            errorObj (sl "File not found: /proj/x.py"))]⟩],
         ⟨[], []⟩, .finalAnswer, 2, 1⟩ := by
  refine ⟨rfl, ?_, rfl⟩
  intro h
  exact absurd (congrArg (fun j => dumps j 0) h) (by decide)

/-- C9 (amended): when the model emits a read_file call with a relative
path p and base_path/p is missing, the tool result is the error dict
carrying the rewritten absolute path base_path/p (the loop rewrites the
relative argument against base_path before calling the handler, and the
handler interpolates the path it received); the result is appended inside
a user-role message and the loop proceeds to iteration 2. -/
theorem C9_amended_thm (env : Env) (ms : List Message) (base : Str) (cfg : ClaudeCfg)
    (world : World) (p t0 t1 : Str)
    (hcfg : cfg.enabled = false)
    (h0 : iterOutcome env 0 = .completed t0)
    (hparse : parse_tool_calls t0
      = [Json.obj [(sl "tool", Json.str (sl "read_file")),
          (sl "args", Json.obj [(sl "path", Json.str p)])]])
    (hrel : is_absolute p = false) (hbase : is_absolute base = true)
    (hmiss : lookupFs world.fs (pathJoin base p) = none)
    (h1 : iterOutcome env 1 = .completed t1)
    (hnt1 : (parse_tool_calls t1).isEmpty = true) :
    agent_chat env ms base cfg world
      = ⟨t1,
         ms ++ [⟨sl "assistant", t0⟩]
            ++ [⟨sl "user", resultText [(Json.str (sl "read_file"),
                errorObj (sl "File not found: " ++ pathJoin base p))]⟩],
         world, .finalAnswer, 2, 1⟩ := by
  have hone := execOneCall_read_missing env base cfg ⟨world, 0, 0, 0, 0⟩ p hrel hbase hmiss
  have hfold : foldCalls env base cfg ⟨world, 0, 0, 0, 0⟩ (parse_tool_calls t0)
      = ([(Json.str (sl "read_file"),
           errorObj (sl "File not found: " ++ pathJoin base p))],
         ⟨world, 0, 0, 0, 0⟩) := by
    rw [hparse]
    show (match execOneCall env base cfg ⟨world, 0, 0, 0, 0⟩
        (Json.obj [(sl "tool", Json.str (sl "read_file")),
          (sl "args", Json.obj [(sl "path", Json.str p)])]) with
      | (name, result, st1) =>
        match foldCalls env base cfg st1 [] with
        | (trs, st2) => ((name, result) :: trs, st2)) = _
    rw [hone]
    rfl
  rw [agent_chat_eq hcfg, show MAX_ITERATIONS = 9 + 1 from rfl,
    agentLoop_tools h0 hcfg (by rw [hparse]; rfl), hfold,
    show (9 : Nat) = 8 + 1 from rfl, agentLoop_final h1 hcfg hnt1]

/-- Witness for C9_amended_thm at the concrete scenario of the claim. -/
theorem C9_amended_witness :
    agent_chat c9env [⟨sl "user", sl "please read x.py"⟩] (sl "/proj")
        ⟨false, false, false⟩ ⟨[], []⟩
      = ⟨sl "done!",
         [⟨sl "user", sl "please read x.py"⟩] ++ [⟨sl "assistant", c9text⟩]
            ++ [⟨sl "user", resultText [(Json.str (sl "read_file"),
                errorObj (sl "File not found: " ++ pathJoin (sl "/proj") (sl "x.py")))]⟩],
         ⟨[], []⟩, .finalAnswer, 2, 1⟩ :=
  C9_amended_thm c9env [⟨sl "user", sl "please read x.py"⟩] (sl "/proj")
    ⟨false, false, false⟩ ⟨[], []⟩ (sl "x.py") c9text (sl "done!")
    rfl rfl rfl rfl rfl rfl rfl rfl

end LocalCode
